import Mathlib

/-! # SD card file menu (`code/software/sdfat_menu/kmain.c`)

A shallow embedding of the menu program of the rosco_m68k SD card menu:
the CRC-32 routine, the friendly size formatter, the directory scanner,
the two-column key assignment of the menu and its decoding in the menu
loop, the loader loop, the path buffer handling, the tokenizer and the
command table of the command prompt, the streaming file processor with the
checksum callback, and the boot control.

Conventions.  A C `char` is a byte, represented by its code as a `Nat`;
a C string is the list of the bytes before its terminating NUL; a `char`
array is a list of bytes of the array's length.  `uint32_t` arithmetic
that can wrap is reduced modulo `2 ^ 32` explicitly.
-/

namespace SdfatMenu

/-! ## Bytes and C strings -/

/-- The bytes of an ASCII string literal (without a terminating NUL). -/
def asc (s : String) : List Nat := s.toList.map Char.toNat

/-- Read of `buf[i]` in a `char` array. -/
def rd (buf : List Nat) (i : Nat) : Nat := buf.getD i 0

/-! ## CRC-32 (`crc32b`, kmain.c 83-126) -/

/-- The constant table `crc32_tab` of `crc32b`. -/
def crc32_tab : List Nat := [
   0x00000000, 0x77073096, 0xee0e612c, 0x990951ba, 0x076dc419, 0x706af48f, 0xe963a535, 0x9e6495a3,
   0x0edb8832, 0x79dcb8a4, 0xe0d5e91e, 0x97d2d988, 0x09b64c2b, 0x7eb17cbd, 0xe7b82d07, 0x90bf1d91,
   0x1db71064, 0x6ab020f2, 0xf3b97148, 0x84be41de, 0x1adad47d, 0x6ddde4eb, 0xf4d4b551, 0x83d385c7,
   0x136c9856, 0x646ba8c0, 0xfd62f97a, 0x8a65c9ec, 0x14015c4f, 0x63066cd9, 0xfa0f3d63, 0x8d080df5,
   0x3b6e20c8, 0x4c69105e, 0xd56041e4, 0xa2677172, 0x3c03e4d1, 0x4b04d447, 0xd20d85fd, 0xa50ab56b,
   0x35b5a8fa, 0x42b2986c, 0xdbbbc9d6, 0xacbcf940, 0x32d86ce3, 0x45df5c75, 0xdcd60dcf, 0xabd13d59,
   0x26d930ac, 0x51de003a, 0xc8d75180, 0xbfd06116, 0x21b4f4b5, 0x56b3c423, 0xcfba9599, 0xb8bda50f,
   0x2802b89e, 0x5f058808, 0xc60cd9b2, 0xb10be924, 0x2f6f7c87, 0x58684c11, 0xc1611dab, 0xb6662d3d,
   0x76dc4190, 0x01db7106, 0x98d220bc, 0xefd5102a, 0x71b18589, 0x06b6b51f, 0x9fbfe4a5, 0xe8b8d433,
   0x7807c9a2, 0x0f00f934, 0x9609a88e, 0xe10e9818, 0x7f6a0dbb, 0x086d3d2d, 0x91646c97, 0xe6635c01,
   0x6b6b51f4, 0x1c6c6162, 0x856530d8, 0xf262004e, 0x6c0695ed, 0x1b01a57b, 0x8208f4c1, 0xf50fc457,
   0x65b0d9c6, 0x12b7e950, 0x8bbeb8ea, 0xfcb9887c, 0x62dd1ddf, 0x15da2d49, 0x8cd37cf3, 0xfbd44c65,
   0x4db26158, 0x3ab551ce, 0xa3bc0074, 0xd4bb30e2, 0x4adfa541, 0x3dd895d7, 0xa4d1c46d, 0xd3d6f4fb,
   0x4369e96a, 0x346ed9fc, 0xad678846, 0xda60b8d0, 0x44042d73, 0x33031de5, 0xaa0a4c5f, 0xdd0d7cc9,
   0x5005713c, 0x270241aa, 0xbe0b1010, 0xc90c2086, 0x5768b525, 0x206f85b3, 0xb966d409, 0xce61e49f,
   0x5edef90e, 0x29d9c998, 0xb0d09822, 0xc7d7a8b4, 0x59b33d17, 0x2eb40d81, 0xb7bd5c3b, 0xc0ba6cad,
   0xedb88320, 0x9abfb3b6, 0x03b6e20c, 0x74b1d29a, 0xead54739, 0x9dd277af, 0x04db2615, 0x73dc1683,
   0xe3630b12, 0x94643b84, 0x0d6d6a3e, 0x7a6a5aa8, 0xe40ecf0b, 0x9309ff9d, 0x0a00ae27, 0x7d079eb1,
   0xf00f9344, 0x8708a3d2, 0x1e01f268, 0x6906c2fe, 0xf762575d, 0x806567cb, 0x196c3671, 0x6e6b06e7,
   0xfed41b76, 0x89d32be0, 0x10da7a5a, 0x67dd4acc, 0xf9b9df6f, 0x8ebeeff9, 0x17b7be43, 0x60b08ed5,
   0xd6d6a3e8, 0xa1d1937e, 0x38d8c2c4, 0x4fdff252, 0xd1bb67f1, 0xa6bc5767, 0x3fb506dd, 0x48b2364b,
   0xd80d2bda, 0xaf0a1b4c, 0x36034af6, 0x41047a60, 0xdf60efc3, 0xa867df55, 0x316e8eef, 0x4669be79,
   0xcb61b38c, 0xbc66831a, 0x256fd2a0, 0x5268e236, 0xcc0c7795, 0xbb0b4703, 0x220216b9, 0x5505262f,
   0xc5ba3bbe, 0xb2bd0b28, 0x2bb45a92, 0x5cb36a04, 0xc2d7ffa7, 0xb5d0cf31, 0x2cd99e8b, 0x5bdeae1d,
   0x9b64c2b0, 0xec63f226, 0x756aa39c, 0x026d930a, 0x9c0906a9, 0xeb0e363f, 0x72076785, 0x05005713,
   0x95bf4a82, 0xe2b87a14, 0x7bb12bae, 0x0cb61b38, 0x92d28e9b, 0xe5d5be0d, 0x7cdcefb7, 0x0bdbdf21,
   0x86d3d2d4, 0xf1d4e242, 0x68ddb3f8, 0x1fda836e, 0x81be16cd, 0xf6b9265b, 0x6fb077e1, 0x18b74777,
   0x88085ae6, 0xff0f6a70, 0x66063bca, 0x11010b5c, 0x8f659eff, 0xf862ae69, 0x616bffd3, 0x166ccf45,
   0xa00ae278, 0xd70dd2ee, 0x4e048354, 0x3903b3c2, 0xa7672661, 0xd06016f7, 0x4969474d, 0x3e6e77db,
   0xaed16a4a, 0xd9d65adc, 0x40df0b66, 0x37d83bf0, 0xa9bcae53, 0xdebb9ec5, 0x47b2cf7f, 0x30b5ffe9,
   0xbdbdf21c, 0xcabac28a, 0x53b39330, 0x24b4a3a6, 0xbad03605, 0xcdd70693, 0x54de5729, 0x23d967bf,
   0xb3667a2e, 0xc4614ab8, 0x5d681b02, 0x2a6f2b94, 0xb40bbe37, 0xc30c8ea1, 0x5a05df1b, 0x2d02ef8d]

/-- One iteration of the loop of `crc32b`:
`crc = crc32_tab[(crc ^ *p++) & 0xFF] ^ (crc >> 8)`; `*p` is a `uint8_t`. -/
def crc32_step (crc : Nat) (byte : Nat) : Nat :=
  crc32_tab.getD ((crc ^^^ (byte % 256)) &&& 0xFF) 0 ^^^ (crc >>> 8)

/-- The function `crc32b(crc, buf, size)`: `buf` is the list of the `size` bytes at `buf`.
The register is complemented (`crc ^ ~0U`) on entry and on return. -/
def crc32b (crc : Nat) (buf : List Nat) : Nat :=
  (buf.foldl crc32_step (crc ^^^ 0xFFFFFFFF)) ^^^ 0xFFFFFFFF

/-- The callback `op_crc` as it acts on `filecrc`: `filecrc = crc32b(filecrc, p, l)`. -/
def op_crc (filecrc : Nat) (chunk : List Nat) : Nat := crc32b filecrc chunk

/-- One bit of the reflected CRC with the polynomial 0xEDB88320, in the words of the
specification: the register is shifted right by one bit, and the polynomial is xor-ed
in when the bit shifted out is 1. -/
def spec_crc_bit (c : Nat) : Nat :=
  if c % 2 = 1 then (c >>> 1) ^^^ 0xEDB88320 else c >>> 1

/-- One byte of the bit-by-bit CRC: the byte is xor-ed into the register, then eight bit
steps follow. -/
def spec_crc_byte (c byte : Nat) : Nat := spec_crc_bit^[8] (c ^^^ (byte % 256))

/-- The standard CRC-32 computed bit by bit: initial value 0xFFFFFFFF, reflected
polynomial 0xEDB88320, final bitwise complement. -/
def spec_crc32 (buf : List Nat) : Nat :=
  (buf.foldl spec_crc_byte 0xFFFFFFFF) ^^^ 0xFFFFFFFF

/-! ## Key assignment of the menu (`show_menu_files`, kmain.c 361-392) -/

/-- The first loop of `show_menu_files`, from index `i` with the flag `odd`: the list of
the key characters printed with `%c` for the entries `i, i+1, ..., num_menu_files - 1`.
The argument `'A' + (i / 2) + (odd ? half : 0)` is an `int`, printed as an `unsigned char`. -/
def show_files_loop (num_menu_files half : Nat) : Nat → Nat → Bool → List Nat
  | 0, _, _ => []
  | fuel + 1, i, odd =>
    if i < num_menu_files then
      ((65 + i / 2 + (if odd then half else 0)) % 256) ::
        show_files_loop num_menu_files half fuel (i + 1) (!odd)
    else []

/-- The keys printed by `show_menu_files` for the files, in the order of the flat index:
`odd = false`, `half = (num_menu_files + 1) / 2`, `i = 0 .. num_menu_files - 1`. -/
def show_menu_files_keys (num_menu_files : Nat) : List Nat :=
  show_files_loop num_menu_files ((num_menu_files + 1) / 2) num_menu_files 0 false

/-- The second loop of `show_menu_files`: the key characters printed for the directories,
`'0' + (i / 2) + (i & 1 ? half : 0)`. -/
def show_dirs_loop (num_dir_files half : Nat) : Nat → Nat → List Nat
  | 0, _ => []
  | fuel + 1, i =>
    if i < num_dir_files then
      ((48 + i / 2 + (if i &&& 1 ≠ 0 then half else 0)) % 256) ::
        show_dirs_loop num_dir_files half fuel (i + 1)
    else []

/-- The keys printed by `show_menu_files` for the directories, in the order of the flat
index: `half = (num_dir_files + 1) / 2`, `i = 0 .. num_dir_files - 1`. -/
def show_menu_dirs_keys (num_dir_files : Nat) : List Nat :=
  show_dirs_loop num_dir_files ((num_dir_files + 1) / 2) num_dir_files 0

/-! ## Friendly size (`friendly_size`, kmain.c 227-270) -/

/-- Addition of two `uint32_t`. -/
def add32 (a b : Nat) : Nat := (a + b) % 4294967296

/-- Subtraction of two `uint32_t`. -/
def sub32 (a b : Nat) : Nat := (a % 4294967296 + (4294967296 - b % 4294967296)) % 4294967296

/-- Multiplication of two `uint32_t`. -/
def mul32 (a b : Nat) : Nat := (a * b) % 4294967296

/-- The digits of `n`, least significant first consumed, prepended to `acc`. -/
def fmt_u_loop : Nat → Nat → List Nat → List Nat
  | 0, _, acc => acc
  | fuel + 1, n, acc =>
    if n / 10 = 0 then (48 + n % 10) :: acc
    else fmt_u_loop fuel (n / 10) ((48 + n % 10) :: acc)

/-- The conversion `%u` of `printf` for a 32-bit `unsigned`: the decimal digits of the
value, most significant first, without leading zeros (a 32-bit value has at most ten). -/
def fmt_u (n : Nat) : List Nat := fmt_u_loop 10 (n % 4294967296) []

/-- The characters `snprintf(buf, size, ...)` leaves in `buf` before the NUL when the
formatted text is `text`: at most `size - 1` of them. -/
def snprintf (size : Nat) (text : List Nat) : List Nat := text.take (size - 1)

/-- The function `friendly_size(v)`; the result is the string left in `size_str[8]`. -/
def friendly_size (v0 : Nat) : List Nat :=
  let v := v0 % 4294967296
  let units : Nat :=
    if v > 999 then
      (if v < 999 * 1024 then 1024
       else if v < 999 * 1024 * 1024 then 1024 * 1024
       else 1024 * 1024 * 1024)
    else 1
  let unitlabel : Nat :=
    if v > 999 then
      (if v < 999 * 1024 then 75
       else if v < 999 * 1024 * 1024 then 77
       else 71)
    else 66
  let round := (units / 10) / 2
  let iv := add32 v round / units
  if iv < 10 ∧ units > 1 then
    let tenth_units := units / 10
    let tv := sub32 (add32 v round) (mul32 iv units) / (if tenth_units > 0 then tenth_units else 1)
    snprintf 8 (fmt_u iv ++ [46] ++ fmt_u tv ++ [unitlabel])
  else
    let round := (units / 1000) / 2
    let iv := add32 v round / units
    snprintf 8 (fmt_u iv ++ [unitlabel])

/-! ## Loader (`execute_bin_file`, kmain.c 394-470) -/

/-- The value `EOF` of `<stdio.h>`. -/
def EOF : Int := -1

/-- The variables of the load loop of `execute_bin_file`: the pointer `loadptr`, the last
read result `c`, the progress counter `b`, the number of `fl_fread` calls made so far and
the number of progress dots sent. -/
structure LoadState where
  loadptr : Nat
  c : Int
  b : Nat
  calls : Nat
  dots : Nat
deriving DecidableEq, Repr

/-- The loop `while (loadptr < endptr && (c = fl_fread(loadptr, 512, 1, file)) > 0)` of
`execute_bin_file`.  `fread k` is the result of the `k`-th call of `fl_fread` on the
file (calls are counted from 0).  The result is `none` when the fuel runs out. -/
def load_loop (endptr : Nat) (fread : Nat → Int) : Nat → LoadState → Option LoadState
  | 0, _ => none
  | fuel + 1, st =>
    if st.loadptr < endptr then
      let c := fread st.calls
      if c > 0 then
        load_loop endptr fread fuel
          { loadptr := st.loadptr + c.toNat
            c := c
            b := if st.b + 1 = 8 then 0 else st.b + 1
            calls := st.calls + 1
            dots := if st.b + 1 = 8 then st.dots + 1 else st.dots }
      else some { st with c := c, calls := st.calls + 1 }
    else some st

/-- How `execute_bin_file` ends. -/
inductive ExecOutcome where
  /-- The file could not be opened: "...open failed!". -/
  | open_failed
  /-- The value `c` was `EOF`: "Loaded `bytes` bytes", then `jmp _LOAD_ADDRESS`; the flag
  tells whether `disable_sd_boot` was called first. -/
  | jump (bytes : Nat) (disable_sd : Bool)
  /-- The error branch: "*** `kind` error at offset `bytes`", and return to the caller. -/
  | error (kind : List Nat) (bytes : Nat)
deriving DecidableEq, Repr

/-- The function `execute_bin_file`, after the file has been opened (directly or with
the padded extension): `file` is `none` when both `fl_fopen` calls failed, otherwise the
results of the successive `fl_fread` calls.  `LOAD_ADDRESS` and `INITIAL_STACK` are the
addresses `_LOAD_ADDRESS` and `_INITIAL_STACK`; pointers are addresses without
wraparound.  Every iteration of the loop adds at least one byte, so the distance from
`_LOAD_ADDRESS` to `_INITIAL_STACK` plus one is fuel enough. -/
def execute_bin_file (LOAD_ADDRESS INITIAL_STACK : Nat) (no_sd_boot : Bool)
    (file : Option (Nat → Int)) : Option ExecOutcome :=
  match file with
  | none => some ExecOutcome.open_failed
  | some fread =>
    let loadstartptr := LOAD_ADDRESS
    let endptr := INITIAL_STACK
    match load_loop endptr fread (INITIAL_STACK - LOAD_ADDRESS + 1)
        { loadptr := loadstartptr, c := 0, b := 0, calls := 0, dots := 0 } with
    | none => none
    | some st =>
      let bytes := (st.loadptr - loadstartptr) % 4294967296
      if st.c = EOF then some (ExecOutcome.jump bytes no_sd_boot)
      else some (ExecOutcome.error
        (if st.loadptr < endptr then asc "Read" else asc "Too large") bytes)

/-- The reads of a file of `size` bytes that is read without error: the `k`-th call
delivers `min(512, remaining)` bytes, and `EOF` once no bytes remain. -/
def sized_file (size : Nat) (k : Nat) : Int :=
  if 512 * k < size then ((min 512 (size - 512 * k) : Nat) : Int) else EOF

/-! ## C library string functions used by the program -/

/-- The C string that starts at index `i` of the array `buf`: the bytes before the first
NUL at or after `i`. -/
def cstr (buf : List Nat) (i : Nat) : List Nat := (buf.drop i).takeWhile (fun c => c ≠ 0)

/-- The function `tolower` of `<ctype.h>` in the C locale. -/
def tolower (c : Nat) : Nat := if 65 ≤ c ∧ c ≤ 90 then c + 32 else c

/-- The function `toupper` of `<ctype.h>` in the C locale. -/
def toupper (c : Nat) : Nat := if 97 ≤ c ∧ c ≤ 122 then c - 32 else c

/-- The function `strcmp` on two C strings. -/
def strcmp : List Nat → List Nat → Int
  | [], [] => 0
  | [], b :: _ => 0 - (b : Int)
  | a :: _, [] => (a : Int)
  | a :: x, b :: y => if a = b then strcmp x y else (a : Int) - (b : Int)

/-- The function `strcasecmp` on two C strings. -/
def strcasecmp : List Nat → List Nat → Int
  | [], [] => 0
  | [], b :: _ => 0 - (tolower b : Int)
  | a :: _, [] => (tolower a : Int)
  | a :: x, b :: y =>
    if tolower a = tolower b then strcasecmp x y else (tolower a : Int) - (tolower b : Int)

/-- The function `strlen` on the C string at the start of the array `buf`. -/
def strlen (buf : List Nat) : Nat := (cstr buf 0).length

/-- The scan of `strrchr`: `s` is the rest of the string, `i` the index of its first
byte and `last` the index of the last occurrence of `c` seen so far. -/
def strrchr_loop (c : Nat) : List Nat → Nat → Option Nat → Option Nat
  | [], _, last => last
  | x :: xs, i, last => strrchr_loop c xs (i + 1) (if x = c then some i else last)

/-- The function `strrchr(buf, c)` for a character `c` other than NUL: the index of the
last occurrence of `c` in the C string at the start of `buf`, `none` for `NULL`. -/
def strrchr (buf : List Nat) (c : Nat) : Option Nat := strrchr_loop c (cstr buf 0) 0 none

/-- The function `memset(buf + i, v, n)`. -/
def memset (buf : List Nat) (i v n : Nat) : List Nat :=
  buf.take i ++ List.replicate n v ++ buf.drop (i + n)

/-- The function `strncpy(dst, src, n)` for a C string `src`: the first `n` bytes of
`dst` become the first `n` characters of `src`, padded with NULs. -/
def strncpy (dst src : List Nat) (n : Nat) : List Nat :=
  src.take n ++ List.replicate (n - src.length) 0 ++ dst.drop n

/-! ## Paths (`fullpath`, kmain.c 205-225, and `change_dir`, kmain.c 472-501)

The constant `FATFS_MAX_LONG_FILENAME` (the size of `current_dir` and of `filename`) is
defined outside these sources; it is a parameter `N` here. -/

/-- The function `fullpath(path)`: the C string left in `filename[N]`, which is cleared
first.  `current_dir` is the array of that name and `path` a C string. -/
def fullpath (N : Nat) (current_dir : List Nat) (path : List Nat) : List Nat :=
  if path.head? = some 47 then
    cstr (strncpy (List.replicate N 0) path (N - 1)) 0
  else
    snprintf (N - 1)
      (asc "/" ++ cstr current_dir 0 ++ (if strlen current_dir > 0 then asc "/" else []) ++ path)

/-- The function `change_dir(name)` as it acts on the array `current_dir[N]`.
`fl_is_dir` is the directory test of the FAT library. -/
def change_dir (N : Nat) (fl_is_dir : List Nat → Bool) (current_dir : List Nat)
    (name : List Nat) : List Nat :=
  if strcmp name (asc "..") = 0 then
    let current_dir1 :=
      if rd current_dir (strlen current_dir) = 47 then current_dir.set (strlen current_dir) 0
      else current_dir
    let parent :=
      match strrchr current_dir1 47 with
      | some p => p
      | none => 0
    memset current_dir1 parent 0 (N - parent)
  else
    let filename := fullpath N current_dir name
    if !fl_is_dir filename then current_dir
    else strncpy current_dir (filename.drop 1) (N - 1)

/-- The array `current_dir[N]` that holds the C string `path` and is NUL from there on. -/
def path_buffer (N : Nat) (path : List Nat) : List Nat :=
  path ++ List.replicate (N - path.length) 0

/-! ## Command prompt (`command_prompt`, kmain.c 686-806) -/

/-- The enumeration `CMD_DIR .. CMD_EXIT, NUM_CMD`. -/
def CMD_DIR : Nat := 0
def CMD_CD : Nat := 1
def CMD_RUN : Nat := 2
def CMD_TYPE : Nat := 3
def CMD_DUMP : Nat := 4
def CMD_CRC : Nat := 5
def CMD_BOOT : Nat := 6
def CMD_UPLOAD : Nat := 7
def CMD_EXIT : Nat := 8
def NUM_CMD : Nat := 9

/-- An entry of `cmd_table`: command, alias (`alias_`, `none` for `NULL`) and help text. -/
structure CmdEntry where
  command : List Nat
  alias_ : Option (List Nat)
  help : List Nat

/-- The table `cmd_table`, in the order of the enumeration. -/
def cmd_table : List CmdEntry := [
  ⟨asc "dir", some (asc "ls"), asc "Directory listing"⟩,
  ⟨asc "cd", none, asc "Change current dir"⟩,
  ⟨asc "run", none, asc "Load and execute BIN file"⟩,
  ⟨asc "type", some (asc "cat"), asc "Display ASCII file"⟩,
  ⟨asc "dump", none, asc "Dump file in hex and ASCII"⟩,
  ⟨asc "crc", none, asc "CRC-32 of file"⟩,
  ⟨asc "boot", none, asc "Warm-boot"⟩,
  ⟨asc "upload", some (asc "/"), asc "Warm-boot without SD card boot"⟩,
  ⟨asc "exit", some (asc "x"), asc "Exit to menu in current dir"⟩]

/-- The test of the lookup loop for one table entry. -/
def cmd_matches (cmd : List Nat) (e : CmdEntry) : Bool :=
  strcasecmp cmd e.command = 0 ||
    (match e.alias_ with
     | none => false
     | some a => strcasecmp cmd a = 0)

/-- The lookup loop `for (cmd_num = 0; cmd_num < NUM_CMD; cmd_num++)`: the index of the
first entry that matches, `NUM_CMD` when none does. -/
def cmd_lookup (cmd : List Nat) : Nat := cmd_table.findIdx (cmd_matches cmd)

/-- The command table in the words of the specification: `dir` (alias `ls`), `cd`, `run`,
`type` (alias `cat`), `dump`, `crc`, `boot`, `upload` (alias `/`), `exit` (alias `x`); the
argument is a token in lower case, the result the number of the command, `NUM_CMD` for a
token that is no keyword and no alias. -/
def spec_command_of (t : List Nat) : Nat :=
  if t = asc "dir" ∨ t = asc "ls" then CMD_DIR
  else if t = asc "cd" then CMD_CD
  else if t = asc "run" then CMD_RUN
  else if t = asc "type" ∨ t = asc "cat" then CMD_TYPE
  else if t = asc "dump" then CMD_DUMP
  else if t = asc "crc" then CMD_CRC
  else if t = asc "boot" then CMD_BOOT
  else if t = asc "upload" ∨ t = asc "/" then CMD_UPLOAD
  else if t = asc "exit" ∨ t = asc "x" then CMD_EXIT
  else NUM_CMD

/-- The loop `while (*p == ' ') p++` from index `i` of `buf`. -/
def skip_spaces (buf : List Nat) : Nat → Nat → Nat
  | 0, i => i
  | fuel + 1, i => if rd buf i = 32 then skip_spaces buf fuel (i + 1) else i

/-- The loop `while (*arg && *arg != ' ') arg++` from index `i` of `buf`. -/
def skip_word (buf : List Nat) : Nat → Nat → Nat
  | 0, i => i
  | fuel + 1, i => if rd buf i ≠ 0 ∧ rd buf i ≠ 32 then skip_word buf fuel (i + 1) else i

/-- The result of the tokenizer: the array `cmd_line` after the NUL has been written,
and the indices of `cmd` and `arg` in it. -/
structure Tokens where
  cmd_line : List Nat
  cmd : Nat
  arg : Nat

/-- The tokenizer of `command_prompt` (kmain.c 725-745) on the array `cmd_line`.  A loop
stops at the latest at the first index past the array, so the length of the array plus
one is fuel enough. -/
def tokenize (cmd_line : List Nat) : Tokens :=
  let fuel := cmd_line.length + 1
  let cmd := skip_spaces cmd_line fuel 0
  let arg := skip_word cmd_line fuel cmd
  let cmd_line1 := cmd_line.set arg 0
  let arg1 := arg + 1
  let arg2 := skip_spaces cmd_line1 fuel arg1
  { cmd_line := cmd_line1, cmd := cmd, arg := arg2 }

/-- The C string `cmd` after tokenizing. -/
def Tokens.cmd_str (t : Tokens) : List Nat := cstr t.cmd_line t.cmd

/-- The C string `arg` after tokenizing. -/
def Tokens.arg_str (t : Tokens) : List Nat := cstr t.cmd_line t.arg

/-- What one pass of the loop of `command_prompt` does with the tokens. -/
inductive Dispatch where
  /-- An empty command: `continue`. -/
  | empty
  | exit
  | dir_operation (arg : List Nat)
  | change_dir (arg : List Nat)
  | execute_bin_file (arg : List Nat)
  | file_operation_type (arg : List Nat)
  | file_operation_dump (arg : List Nat)
  | file_operation_crc (arg : List Nat)
  /-- The command `boot`: `warm_boot(no_sd_boot)`. -/
  | warm_boot_keep
  /-- The command `upload`: `warm_boot(true)`. -/
  | warm_boot_no_sd
  /-- The default case: the command table is printed. -/
  | help
deriving DecidableEq, Repr

/-- One pass of the loop of `command_prompt` after `prompt_readline` has filled
`cmd_line`: tokenizing, lookup and the `switch`. -/
def command_dispatch (cmd_line : List Nat) : Dispatch :=
  let t := tokenize cmd_line
  if t.cmd_str.length < 1 then Dispatch.empty
  else
    let cmd_num := cmd_lookup t.cmd_str
    if cmd_num = CMD_EXIT then Dispatch.exit
    else if cmd_num = CMD_DIR then Dispatch.dir_operation t.arg_str
    else if cmd_num = CMD_CD then Dispatch.change_dir t.arg_str
    else if cmd_num = CMD_RUN then Dispatch.execute_bin_file t.arg_str
    else if cmd_num = CMD_TYPE then Dispatch.file_operation_type t.arg_str
    else if cmd_num = CMD_DUMP then Dispatch.file_operation_dump t.arg_str
    else if cmd_num = CMD_CRC then Dispatch.file_operation_crc t.arg_str
    else if cmd_num = CMD_BOOT then Dispatch.warm_boot_keep
    else if cmd_num = CMD_UPLOAD then Dispatch.warm_boot_no_sd
    else Dispatch.help

/-- The conversion `%-W.Ps` of `printf`: at most `prec` characters of the string, padded
with spaces on the right to `width` characters. -/
def fmt_s_left (width prec : Nat) (str : List Nat) : List Nat :=
  str.take prec ++ List.replicate (width - (str.take prec).length) 32

/-- The usage hint `cmd_arg` of the help table:
`cmd_num < CMD_RUN ? "[dir]" : cmd_num < CMD_UPLOAD ? "<file>" : ""`. -/
def cmd_arg (cmd_num : Nat) : List Nat :=
  if cmd_num < CMD_RUN then asc "[dir]"
  else if cmd_num < CMD_UPLOAD then asc "<file>"
  else asc ""

/-- The line of the help table for the entry `e` with number `cmd_num`:
`printf(" %-8.8s %-6.6s %s", command, cmd_arg, help)`, then `printf(" (alias %s)", alias)`
when the entry has an alias, then `printf("\n")`. -/
def help_line (cmd_num : Nat) (e : CmdEntry) : List Nat :=
  asc " " ++ fmt_s_left 8 8 e.command ++ asc " " ++ fmt_s_left 6 6 (cmd_arg cmd_num) ++
    asc " " ++ e.help ++
    (match e.alias_ with
     | none => []
     | some a => asc " (alias " ++ a ++ asc ")") ++
    asc "\n"

/-- What the default case of the `switch` of `command_prompt` prints: the heading and one
line for each `cmd_num = 0 .. NUM_CMD - 1`. -/
def command_help : List (List Nat) :=
  asc "SD Card prompt commands:\n" :: List.zipWith help_line (List.range NUM_CMD) cmd_table

/-- The array `cmd_line[256]` as `prompt_readline` leaves it when the line `line` of at
most 255 characters has been typed: the array is cleared, then holds the characters. -/
def cmd_line_of (line : List Nat) : List Nat := line ++ List.replicate (256 - line.length) 0

/-! ## Directory scan (`get_menu_files`, kmain.c 295-358) -/

/-- The constant `MAX_BIN_FILES`. -/
def MAX_BIN_FILES : Nat := 26

/-- The constant `MAX_DIR_FILES`. -/
def MAX_DIR_FILES : Nat := 10

/-- The fields of `struct fs_dir_ent` that the program reads. -/
structure DirEnt where
  filename : List Nat
  is_dir : Bool
  size : Nat
deriving DecidableEq, Repr

/-- The variables `get_menu_files` works on: the counters, the arrays `menu_files`,
`dir_files` and `bin_sizes`, the two local flags, and what it prints.  The entry
`bin_sizes_written` lists the indices `num_menu_files` at which the statement
`bin_sizes[num_menu_files] = dirent.size` was executed, in order; the list `bin_sizes`
holds the 26 elements of the array.  The counters are `int` in the source and stay far
below `2 ^ 31` for a FAT directory; they are not reduced here. -/
structure MenuState where
  num_menu_files : Nat
  num_dir_files : Nat
  menu_files : List (List Nat)
  dir_files : List (List Nat)
  bin_sizes : List Nat
  bin_sizes_written : List Nat
  too_many_files : Bool
  too_many_dirs : Bool
  output : List (List Nat)
deriving DecidableEq, Repr

/-- The warning printed for a file past the capacity. -/
def too_many_files_msg : List Nat :=
  asc "*** Too many menu files (use prompt to access others > 26)\n"

/-- The warning printed for a directory past the capacity. -/
def too_many_dirs_msg : List Nat :=
  asc "*** Too many directories (use prompt to access others > 10)\n"

/-- The body of the loop `while (fl_readdir(&dirstat, &dirent) == 0)` for one entry;
`N` is `MAX_BIN_NAMELEN`.  The store `bin_sizes[num_menu_files] = dirent.size` at an
index of 26 or more lies behind the array: here it is logged in `bin_sizes_written` and
changes nothing else, which is the case of `get_menu_files_step_layout` where that store
lands apart from every variable of the scan (`get_menu_files_layout_nothing`). -/
def get_menu_files_step (N : Nat) (st : MenuState) (dirent : DirEnt) : MenuState :=
  if !dirent.is_dir then
    let len := dirent.filename.length
    if len ≥ 4 then
      let ext := dirent.filename.drop (len - 4)
      if strcasecmp ext (asc ".bin") = 0 ∨ strcasecmp ext (asc ".txt") = 0 then
        let st1 : MenuState :=
          if st.num_menu_files < MAX_BIN_FILES then
            { st with menu_files := (st.menu_files.set st.num_menu_files
                (strncpy (st.menu_files.getD st.num_menu_files []) dirent.filename (N - 1))) }
          else if !st.too_many_files then
            { st with output := st.output ++ [too_many_files_msg], too_many_files := true }
          else st
        { st1 with
          bin_sizes := st1.bin_sizes.set st1.num_menu_files (dirent.size % 4294967296)
          bin_sizes_written := st1.bin_sizes_written ++ [st1.num_menu_files]
          num_menu_files := st1.num_menu_files + 1 }
      else st
    else st
  else if strcmp dirent.filename (asc ".") ≠ 0 then
    let st1 : MenuState :=
      if st.num_dir_files < MAX_DIR_FILES then
        { st with dir_files := (st.dir_files.set st.num_dir_files
            (strncpy (st.dir_files.getD st.num_dir_files []) dirent.filename (N - 1))) }
      else if !st.too_many_dirs then
        { st with output := st.output ++ [too_many_dirs_msg], too_many_dirs := true }
      else st
    { st1 with num_dir_files := st1.num_dir_files + 1 }
  else st

/-- The state `get_menu_files` starts from: counters 0, arrays cleared, flags false. -/
def get_menu_files_init (N : Nat) : MenuState :=
  { num_menu_files := 0
    num_dir_files := 0
    menu_files := List.replicate MAX_BIN_FILES (List.replicate N 0)
    dir_files := List.replicate MAX_DIR_FILES (List.replicate N 0)
    bin_sizes := List.replicate MAX_BIN_FILES 0
    bin_sizes_written := []
    too_many_files := false
    too_many_dirs := false
    output := [] }

/-- The function `get_menu_files`.  `listing` is `none` when `fl_opendir` fails, otherwise
the entries that `fl_readdir` delivers before it returns non-zero. -/
def get_menu_files (N : Nat) (listing : Option (List DirEnt)) : MenuState :=
  match listing with
  | none => get_menu_files_init N
  | some entries => entries.foldl (get_menu_files_step N) (get_menu_files_init N)

/-- An entry that `get_menu_files` counts as a menu file: not a directory, a name of at
least four characters whose last four compare equal to ".bin" or ".txt" with
`strcasecmp`. -/
def is_menu_file (e : DirEnt) : Bool :=
  !e.is_dir && decide (4 ≤ e.filename.length) &&
    (decide (strcasecmp (e.filename.drop (e.filename.length - 4)) (asc ".bin") = 0) ||
     decide (strcasecmp (e.filename.drop (e.filename.length - 4)) (asc ".txt") = 0))

/-- An entry that `get_menu_files` counts as a menu directory: a directory whose name is
not ".". -/
def is_menu_dir (e : DirEnt) : Bool :=
  e.is_dir && decide (strcmp e.filename (asc ".") ≠ 0)

/-- The body of the loop of `get_menu_files` for one entry, with the effect of the store
`bin_sizes[num_menu_files] = dirent.size` (kmain.c 333) made explicit.  For an index
below `MAX_BIN_FILES` the store changes that element of `bin_sizes`.  For an index of 26
or more the store writes behind the array; which variable it overwrites is decided by
the layout of the statics, outside these sources, so that effect is the parameter
`past_end index value st`, the state after the store.  `N` is `MAX_BIN_NAMELEN`. -/
def get_menu_files_step_layout (N : Nat) (past_end : Nat → Nat → MenuState → MenuState)
    (st : MenuState) (dirent : DirEnt) : MenuState :=
  if !dirent.is_dir then
    let len := dirent.filename.length
    if len ≥ 4 then
      let ext := dirent.filename.drop (len - 4)
      if strcasecmp ext (asc ".bin") = 0 ∨ strcasecmp ext (asc ".txt") = 0 then
        let st1 : MenuState :=
          if st.num_menu_files < MAX_BIN_FILES then
            { st with menu_files := (st.menu_files.set st.num_menu_files
                (strncpy (st.menu_files.getD st.num_menu_files []) dirent.filename (N - 1))) }
          else if !st.too_many_files then
            { st with output := st.output ++ [too_many_files_msg], too_many_files := true }
          else st
        let st2 : MenuState :=
          if st1.num_menu_files < MAX_BIN_FILES then
            { st1 with
              bin_sizes := st1.bin_sizes.set st1.num_menu_files (dirent.size % 4294967296) }
          else past_end st1.num_menu_files (dirent.size % 4294967296) st1
        { st2 with
          bin_sizes_written := st1.bin_sizes_written ++ [st1.num_menu_files]
          num_menu_files := st2.num_menu_files + 1 }
      else st
    else st
  else if strcmp dirent.filename (asc ".") ≠ 0 then
    let st1 : MenuState :=
      if st.num_dir_files < MAX_DIR_FILES then
        { st with dir_files := (st.dir_files.set st.num_dir_files
            (strncpy (st.dir_files.getD st.num_dir_files []) dirent.filename (N - 1))) }
      else if !st.too_many_dirs then
        { st with output := st.output ++ [too_many_dirs_msg], too_many_dirs := true }
      else st
    { st1 with num_dir_files := st1.num_dir_files + 1 }
  else st

/-- The function `get_menu_files` with the effect `past_end` of a store behind
`bin_sizes` as a parameter. -/
def get_menu_files_layout (N : Nat) (past_end : Nat → Nat → MenuState → MenuState)
    (listing : Option (List DirEnt)) : MenuState :=
  match listing with
  | none => get_menu_files_init N
  | some entries => entries.foldl (get_menu_files_step_layout N past_end) (get_menu_files_init N)

/-- The relation between the counters, the flags and the warnings printed that every
pass of the loop of `get_menu_files` keeps. -/
def ScanInv (st : MenuState) : Prop :=
  st.too_many_files = decide (MAX_BIN_FILES < st.num_menu_files) ∧
  st.too_many_dirs = decide (MAX_DIR_FILES < st.num_dir_files) ∧
  st.output.count too_many_files_msg = (if MAX_BIN_FILES < st.num_menu_files then 1 else 0) ∧
  st.output.count too_many_dirs_msg = (if MAX_DIR_FILES < st.num_dir_files then 1 else 0)

/-! ## Menu loop (`kmain`, kmain.c 849-943) -/

/-- What the menu loop does with one key. -/
inductive KeyAction where
  /-- RETURN: `command_prompt()`. -/
  | prompt
  /-- The bell is sent and another key is read (`getnewkey = true`). -/
  | rejected
  /-- A letter: the file `menu_files[run_num]` is typed or executed. -/
  | select_file (run_num : Nat)
  /-- A digit: `change_dir(dir_files[dir_num])`. -/
  | select_dir (dir_num : Nat)
  /-- The key `.`: `no_sd_boot` is toggled. -/
  | toggle_no_sd_boot
  /-- The key `/` or `^A`: `warm_boot(true)`. -/
  | upload
  /-- Any other key but SPACE: `warm_boot(no_sd_boot)`. -/
  | exit
  /-- SPACE: the listing is reloaded. -/
  | reload
deriving DecidableEq, Repr

/-- The body of the `do ... while (getnewkey)` loop of `kmain` for the character `c`
returned by `readchar()`, with the counters left by `get_menu_files`. -/
def menu_key (num_menu_files num_dir_files : Nat) (c : Nat) : KeyAction :=
  let key := toupper c
  if key = 13 then KeyAction.prompt
  else if key ≥ 65 ∧ key ≤ 90 then
    let run_num := key - 65
    let half := (num_menu_files + 1) / 2
    let run_num := if run_num ≥ half then ((run_num - half) * 2) + 1 else run_num * 2
    if run_num ≥ num_menu_files then KeyAction.rejected
    else KeyAction.select_file run_num
  else if key ≥ 48 ∧ key ≤ 57 then
    let dir_num := key - 48
    let half := (num_dir_files + 1) / 2
    let dir_num := if dir_num ≥ half then ((dir_num - half) * 2) + 1 else dir_num * 2
    if dir_num ≥ num_dir_files then KeyAction.rejected
    else KeyAction.select_dir dir_num
  else if key = 46 then KeyAction.toggle_no_sd_boot
  else if key = 47 ∨ key = 1 then KeyAction.upload
  else if key ≠ 32 then KeyAction.exit
  else KeyAction.reload

/-! ## Boot control (`disable_sd_boot` and `warm_boot`, kmain.c 180-203)

The values `_SDB_MEM_SIZE` and `_INITIAL_STACK` and the routine `resident_init` are
defined outside these sources; the two values and the 32-bit word stored at the address
`_INITIAL_STACK` are parameters here. -/

/-- The function `disable_sd_boot`: the result tells whether `resident_init()` is called.
`reserved` is the 32-bit difference `_SDB_MEM_SIZE - _INITIAL_STACK`, tested against 0. -/
def disable_sd_boot (SDB_MEM_SIZE INITIAL_STACK word_at_initial_stack : Nat) : Bool :=
  let magic := 0xb007c0de
  let reserved := sub32 SDB_MEM_SIZE INITIAL_STACK
  if reserved = 0 ∨ word_at_initial_stack ≠ magic then true else false

/-- The function `warm_boot(no_sd)` up to the warm restart `_WARM_BOOT()`: the result
tells whether `resident_init()` has been called before the restart. -/
def warm_boot (no_sd : Bool) (SDB_MEM_SIZE INITIAL_STACK word_at_initial_stack : Nat) : Bool :=
  if no_sd then disable_sd_boot SDB_MEM_SIZE INITIAL_STACK word_at_initial_stack
  else false

/-! ## Streaming file processor (`file_operation`, kmain.c 554-604, `op_crc`, 676-684) -/

/-- One call `fl_fread(buffer, sizeof(buffer), 1, file)`: the value returned and the bytes
the call has stored at the start of `buffer`. -/
structure ReadResult where
  c : Int
  data : List Nat

/-- The globals `filesize`, `filecrc` and `buffer[512]`, what has been printed, and the
list `op_calls` of the lengths `l` with which `op_func(buffer, l)` has been called. -/
structure FileOpState where
  filesize : Nat
  filecrc : Nat
  buffer : List Nat
  output : List (List Nat)
  op_calls : List Int

/-- The array `buffer` after `data` has been stored at its start. -/
def buffer_store (buffer data : List Nat) : List Nat :=
  data.take buffer.length ++ buffer.drop data.length

/-- The callback `op_crc(p, l)` on the globals: `filecrc = crc32b(filecrc, p, l)`, and the
running size is printed when `(filesize & 0x3fff) == 0`. -/
def op_crc_call (st : FileOpState) (p : List Nat) (l : Int) : FileOpState :=
  { st with
    filecrc := op_crc st.filecrc (p.take l.toNat)
    output :=
      if st.filesize &&& 0x3fff = 0 then
        st.output ++ [asc "\r" ++ fmt_s_left 4 4 (friendly_size st.filesize)]
      else st.output }

/-- The loop `while ((c = fl_fread(buffer, sizeof(buffer), 1, file)) > 0)` of
`file_operation`, from the `k`-th call of `fl_fread` on: `op_func(buffer, c)`, then
`filesize += c`.  The result is the state and the last value of `c`; it is `none` when
the fuel runs out. -/
def file_operation_loop (op_func : FileOpState → List Nat → Int → FileOpState)
    (fread : Nat → ReadResult) : Nat → Nat → FileOpState → Option (FileOpState × Int)
  | 0, _, _ => none
  | fuel + 1, k, st =>
    if (fread k).c > 0 then
      let st1 : FileOpState := { st with buffer := buffer_store st.buffer (fread k).data }
      let st2 := op_func st1 st1.buffer (fread k).c
      file_operation_loop op_func fread fuel (k + 1)
        { st2 with
          filesize := add32 st2.filesize (fread k).c.toNat
          op_calls := st.op_calls ++ [(fread k).c] }
    else some (st, (fread k).c)

/-- How `file_operation` returns: the globals, the offset printed with "*** Read error at
offset" (`none` when no read error is reported), and whether the file failed to open. -/
structure FileOpResult where
  state : FileOpState
  read_error : Option Nat
  open_failed : Bool

/-- The function `file_operation(name, op_func)`, after the file has been opened
(directly or with the padded extension): `file` is `none` when both `fl_fopen` calls
failed, otherwise the results of the successive `fl_fread` calls.  `st0` holds the
globals before the call. -/
def file_operation (op_func : FileOpState → List Nat → Int → FileOpState)
    (file : Option (Nat → ReadResult)) (fuel : Nat) (st0 : FileOpState) :
    Option FileOpResult :=
  let st : FileOpState := { st0 with filesize := 0, filecrc := 0, op_calls := [] }
  match file with
  | none => some { state := st, read_error := none, open_failed := true }
  | some fread =>
    match file_operation_loop op_func fread fuel 0 st with
    | none => none
    | some (st1, c) =>
      some { state := st1
             read_error := if c ≠ EOF then some st1.filesize else none
             open_failed := false }

/-- One pass of the loop of `file_operation` for a positive read result `r`, in the words
of the claim: the data delivered is in `buffer`, the consumer is called once with
`buffer` and with the result as length, and the result is added to `filesize`. -/
def file_operation_pass (op_func : FileOpState → List Nat → Int → FileOpState)
    (st : FileOpState) (r : ReadResult) : FileOpState :=
  let st1 : FileOpState := { st with buffer := buffer_store st.buffer r.data }
  let st2 := op_func st1 st1.buffer r.c
  { st2 with filesize := add32 st2.filesize r.c.toNat, op_calls := st.op_calls ++ [r.c] }

/-- The reads of a file that is delivered as the chunks `chunks`, then `EOF`. -/
def chunk_file (chunks : List (List Nat)) (k : Nat) : ReadResult :=
  match chunks[k]? with
  | some chunk => { c := (chunk.length : Int), data := chunk }
  | none => { c := EOF, data := [] }

/-! ## Indices accessed in the arrays `current_dir` and `cmd_line` -/

/-- The indices of `current_dir[N]` that the branch ".." of `change_dir` reads or writes,
statement by statement: `strlen(current_dir)` reads the bytes up to and including the
NUL; the test reads `current_dir[strlen(current_dir)]`; when the test holds, `strlen` is
evaluated again and that index is written; `strrchr` reads the string up to its NUL;
`memset(parent, 0, sizeof(current_dir) - (parent - current_dir))` writes from `parent`
on. -/
def change_dir_up_accesses (N : Nat) (current_dir : List Nat) : List Nat :=
  let len := strlen current_dir
  let scan := List.range (len + 1)
  let test := [len]
  let store := if rd current_dir len = 47 then List.range (len + 1) ++ [len] else []
  let current_dir1 :=
    if rd current_dir len = 47 then current_dir.set len 0 else current_dir
  let scan1 := List.range (strlen current_dir1 + 1)
  let parent :=
    match strrchr current_dir1 47 with
    | some p => p
    | none => 0
  let clear := List.range' parent (N - parent)
  scan ++ test ++ store ++ scan1 ++ clear

/-- The indices read by the loop `while (*p == ' ') p++` from index `i` of `buf`. -/
def skip_spaces_reads (buf : List Nat) : Nat → Nat → List Nat
  | 0, _ => []
  | fuel + 1, i => i :: (if rd buf i = 32 then skip_spaces_reads buf fuel (i + 1) else [])

/-- The indices read by the loop `while (*arg && *arg != ' ') arg++` from index `i`. -/
def skip_word_reads (buf : List Nat) : Nat → Nat → List Nat
  | 0, _ => []
  | fuel + 1, i =>
    i :: (if rd buf i ≠ 0 ∧ rd buf i ≠ 32 then skip_word_reads buf fuel (i + 1) else [])

/-- The indices of `cmd_line` that the tokenizer of `command_prompt` (kmain.c 725-745)
reads or writes: the reads of the first skip loop, the reads of the scan of the command
token, the write `*arg++ = 0`, and the reads of the second skip loop from `arg`. -/
def tokenize_accesses (cmd_line : List Nat) : List Nat :=
  let fuel := cmd_line.length + 1
  let cmd := skip_spaces cmd_line fuel 0
  let arg := skip_word cmd_line fuel cmd
  let cmd_line1 := cmd_line.set arg 0
  let arg1 := arg + 1
  skip_spaces_reads cmd_line fuel 0 ++ skip_word_reads cmd_line fuel cmd ++ [arg] ++
    skip_spaces_reads cmd_line1 fuel arg1

/-- The loop `while (len > 0) buf[--len] = 0` of `prompt_readline`. -/
def clear_line (buf : List Nat) : Nat → List Nat
  | 0 => buf
  | len + 1 => clear_line (buf.set len 0) len

/-- The body of the loop of `prompt_readline` (kmain.c 129-178) for one character `c`
other than RETURN, on the array `buf` and the length `len`.  A `char` is signed on this
target, so `c >= ' '` holds for the bytes 32 to 127. -/
def prompt_readline_key (buf_size : Nat) (st : List Nat × Nat) (c : Nat) : List Nat × Nat :=
  if c = 8 ∨ c = 0x7F then
    (if st.2 > 0 then (st.1.set (st.2 - 1) 0, st.2 - 1) else st)
  else if c = 3 ∨ c = 0x18 then (clear_line st.1 st.2, 0)
  else if st.2 < buf_size - 1 ∧ c ≥ 32 ∧ c < 128 then (st.1.set st.2 c, st.2 + 1)
  else st

/-- The function `prompt_readline(buf, buf_size)` when the characters `keys` are typed
before RETURN: the array `buf` as it is left, and the length returned. -/
def prompt_readline (buf_size : Nat) (keys : List Nat) : List Nat × Nat :=
  let st := keys.foldl (prompt_readline_key buf_size) (List.replicate buf_size 0, 0)
  (st.1.set st.2 0, st.2)

/-! ## Theorems -/

/-- The offset from the base character that the renderer gives the flat index `i` when
`half` is the offset of the right column. -/
theorem show_files_loop_eq (n half : Nat) :
    ∀ fuel i, fuel + i = n →
      show_files_loop n half fuel i (decide (i % 2 = 1)) =
        (List.range' i fuel).map (fun t => (65 + t / 2 + (if t % 2 = 1 then half else 0)) % 256) := by
  intro fuel
  induction fuel with
  | zero => intro i _; simp [show_files_loop]
  | succ fuel ih =>
    intro i hi
    have hlt : i < n := by omega
    have hodd : (!decide (i % 2 = 1)) = decide ((i + 1) % 2 = 1) := by
      by_cases h : i % 2 = 1
      · have h2 : ¬ (i + 1) % 2 = 1 := by omega
        simp [h, h2]
      · have h2 : (i + 1) % 2 = 1 := by omega
        simp [h, h2]
    simp only [show_files_loop, hlt, if_true, hodd, List.range'_succ, List.map_cons]
    rw [ih (i + 1) (by omega)]
    simp

theorem show_menu_files_keys_eq (n : Nat) :
    show_menu_files_keys n =
      (List.range n).map
        (fun t => (65 + t / 2 + (if t % 2 = 1 then (n + 1) / 2 else 0)) % 256) := by
  unfold show_menu_files_keys
  have h := show_files_loop_eq n ((n + 1) / 2) n 0 (by omega)
  simpa [List.range_eq_range'] using h

theorem crc32b_append_seed (crc : Nat) (a b : List Nat) :
    crc32b (crc32b crc a) b = crc32b crc (a ++ b) := by
  unfold crc32b
  rw [List.foldl_append, Nat.xor_assoc, Nat.xor_self, Nat.xor_zero]

/-- C1: for every file count `n ≤ 26` the keys that `show_menu_files` prints for the flat
indices `0 .. n-1` are `'A' + i/2 + (half if i is odd else 0)` with `half = (n+1)/2`, they
are pairwise different and they are exactly the keys `'A' .. 'A'+n-1`; for `n = 3` the
indices 0, 1, 2 get `'A'`, `'C'`, `'B'`. -/
theorem show_menu_files_keys_bijection (n : Nat) (hn : n ≤ 26) :
    (show_menu_files_keys n).length = n ∧
    (∀ i, i < n → (show_menu_files_keys n)[i]? =
        some (65 + i / 2 + (if i % 2 = 1 then (n + 1) / 2 else 0))) ∧
    (show_menu_files_keys n).Nodup ∧
    (∀ k, k ∈ show_menu_files_keys n ↔ 65 ≤ k ∧ k < 65 + n) ∧
    show_menu_files_keys 3 = asc "ACB" := by
  rw [show_menu_files_keys_eq]
  refine ⟨by simp, ?_, ?_, ?_, by decide⟩
  · intro i hi
    have hb : 65 + i / 2 + (if i % 2 = 1 then (n + 1) / 2 else 0) < 256 := by
      split <;> omega
    simp [List.getElem?_map, List.getElem?_range hi, Nat.mod_eq_of_lt hb]
  · refine List.Nodup.map_on ?_ (List.nodup_range n)
    intro i hi j hj h
    rw [List.mem_range] at hi hj
    have hbi : 65 + i / 2 + (if i % 2 = 1 then (n + 1) / 2 else 0) < 256 := by
      split <;> omega
    have hbj : 65 + j / 2 + (if j % 2 = 1 then (n + 1) / 2 else 0) < 256 := by
      split <;> omega
    simp only [Nat.mod_eq_of_lt hbi, Nat.mod_eq_of_lt hbj] at h
    split at h <;> split at h <;> omega
  · intro k
    simp only [List.mem_map, List.mem_range]
    constructor
    · rintro ⟨i, hi, rfl⟩
      have hb : 65 + i / 2 + (if i % 2 = 1 then (n + 1) / 2 else 0) < 256 := by
        split <;> omega
      rw [Nat.mod_eq_of_lt hb]
      split <;> omega
    · rintro ⟨h1, h2⟩
      by_cases hk : k - 65 < (n + 1) / 2
      · refine ⟨2 * (k - 65), by omega, ?_⟩
        have h0 : ¬ (2 * (k - 65)) % 2 = 1 := by omega
        simp only [h0, if_false]
        omega
      · refine ⟨2 * (k - 65 - (n + 1) / 2) + 1, by omega, ?_⟩
        have h0 : (2 * (k - 65 - (n + 1) / 2) + 1) % 2 = 1 := by omega
        simp only [h0, if_true]
        omega

/-- Witness of C1 at `n = 26`. -/
theorem show_menu_files_keys_bijection_witness :
    (show_menu_files_keys 26).length = 26 ∧
    (∀ i, i < 26 → (show_menu_files_keys 26)[i]? =
        some (65 + i / 2 + (if i % 2 = 1 then (26 + 1) / 2 else 0))) ∧
    (show_menu_files_keys 26).Nodup ∧
    (∀ k, k ∈ show_menu_files_keys 26 ↔ 65 ≤ k ∧ k < 65 + 26) ∧
    show_menu_files_keys 3 = asc "ACB" :=
  show_menu_files_keys_bijection 26 (by decide)

/-- C2: `crc32b` is chunk-boundary invariant: seeding the call on `b` with the result
for `a` gives the result of one pass over `a ++ b`, and feeding any partition of a buffer
chunk by chunk (as `op_crc` does with `filecrc`, starting from 0) gives the CRC of the
concatenation of the chunks. -/
theorem crc32b_chunk_invariant :
    (∀ a b : List Nat, crc32b (crc32b 0 a) b = crc32b 0 (a ++ b)) ∧
    (∀ chunks : List (List Nat), chunks.foldl op_crc 0 = crc32b 0 chunks.flatten) := by
  refine ⟨fun a b => crc32b_append_seed 0 a b, ?_⟩
  have key : ∀ (chunks : List (List Nat)) (acc : List Nat),
      chunks.foldl op_crc (crc32b 0 acc) = crc32b 0 (acc ++ chunks.flatten) := by
    intro chunks
    induction chunks with
    | nil => intro acc; simp
    | cons c cs ih =>
      intro acc
      simp only [List.foldl_cons, List.flatten_cons, op_crc]
      rw [crc32b_append_seed, ih, List.append_assoc]
  have h0 : crc32b 0 [] = 0 := by decide
  intro chunks
  have := key chunks []
  rw [h0] at this
  simpa using this

/-- C3: the CRC-32 of the empty input is 0 and the CRC-32 of the nine ASCII bytes
"123456789" is 0xCBF43926. -/
theorem crc32b_check_values :
    crc32b 0 [] = 0x00000000 ∧ crc32b 0 (asc "123456789") = 0xCBF43926 := by
  decide

/-- C4: `friendly_size` returns "0B" for 0, "999B" for 999, "1.0K" for 1000 and "1.0M"
for 1048576; and for every `v ≤ 999` it returns the decimal digits of `v` (one, two or
three of them, no leading zero) followed by `'B'`. -/
theorem friendly_size_examples_and_bytes :
    friendly_size 0 = asc "0B" ∧ friendly_size 999 = asc "999B" ∧
    friendly_size 1000 = asc "1.0K" ∧ friendly_size 1048576 = asc "1.0M" ∧
    (∀ v, v ≤ 999 → friendly_size v = fmt_u v ++ asc "B") ∧
    (∀ v, v ≤ 9 → friendly_size v = [48 + v, 66]) ∧
    (∀ v, 10 ≤ v → v ≤ 99 → friendly_size v = [48 + v / 10, 48 + v % 10, 66]) ∧
    (∀ v, 100 ≤ v → v ≤ 999 →
      friendly_size v = [48 + v / 100, 48 + v / 10 % 10, 48 + v % 10, 66]) := by
  have hfs : ∀ v, v ≤ 999 → friendly_size v = snprintf 8 (fmt_u v ++ [66]) := by
    intro v hv
    have h1 : v % 4294967296 = v := Nat.mod_eq_of_lt (by omega)
    have h2 : ¬ v > 999 := by omega
    simp [friendly_size, h1, h2, add32]
  have hd1 : ∀ v, v ≤ 9 → fmt_u v = [48 + v] := by
    intro v hv
    have h1 : v % 4294967296 = v := Nat.mod_eq_of_lt (by omega)
    have h2 : v / 10 = 0 := by omega
    have h3 : v % 10 = v := by omega
    simp [fmt_u, fmt_u_loop, h1, h2, h3]
  have hd2 : ∀ v, 10 ≤ v → v ≤ 99 → fmt_u v = [48 + v / 10, 48 + v % 10] := by
    intro v hv hv2
    have h1 : v % 4294967296 = v := Nat.mod_eq_of_lt (by omega)
    have h2 : ¬ v / 10 = 0 := by omega
    have h3 : v / 10 / 10 = 0 := by omega
    have h4 : v / 10 % 10 = v / 10 := by omega
    simp [fmt_u, fmt_u_loop, h1, h2, h3, h4]
  have hd3 : ∀ v, 100 ≤ v → v ≤ 999 →
      fmt_u v = [48 + v / 100, 48 + v / 10 % 10, 48 + v % 10] := by
    intro v hv hv2
    have h1 : v % 4294967296 = v := Nat.mod_eq_of_lt (by omega)
    have h2 : ¬ v / 10 = 0 := by omega
    have h3 : ¬ v / 10 / 10 = 0 := by omega
    have h4 : v / 10 / 10 / 10 = 0 := by omega
    have h5 : v / 10 / 10 % 10 = v / 100 := by omega
    simp [fmt_u, fmt_u_loop, h1, h2, h3, h4, h5]
  have hB : asc "B" = [66] := by decide
  refine ⟨by decide, by decide, by decide, by decide, ?_, ?_, ?_, ?_⟩
  · intro v hv
    rw [hfs v hv, hB]
    by_cases c1 : v ≤ 9
    · rw [hd1 v c1]; simp [snprintf]
    · by_cases c2 : v ≤ 99
      · rw [hd2 v (by omega) c2]; simp [snprintf]
      · rw [hd3 v (by omega) hv]; simp [snprintf]
  · intro v hv
    rw [hfs v (by omega), hd1 v hv]; simp [snprintf]
  · intro v hv hv2
    rw [hfs v (by omega), hd2 v hv hv2]; simp [snprintf]
  · intro v hv hv2
    rw [hfs v hv2, hd3 v hv hv2]; simp [snprintf]

/-- Witness of C4 at `v = 321`: the string is "321B". -/
theorem friendly_size_examples_and_bytes_witness :
    friendly_size 321 = asc "321B" := by
  have h := friendly_size_examples_and_bytes.2.2.2.2.2.2.2 321 (by decide) (by decide)
  rw [h]; decide

/-- The load loop on a file larger than the window: it stops with the window
exhausted and a last read result that is not `EOF`. -/
theorem load_loop_too_large (base endptr size : Nat) (hsize : endptr - base < size) :
    ∀ fuel (st : LoadState), endptr - st.loadptr < fuel → base ≤ st.loadptr →
      st.loadptr - base ≤ size → (st.loadptr < endptr → st.loadptr - base = 512 * st.calls) →
      st.c ≠ EOF →
      ∃ st2, load_loop endptr (sized_file size) fuel st = some st2 ∧ st2.c ≠ EOF ∧
        ¬ st2.loadptr < endptr := by
  intro fuel
  induction fuel with
  | zero => intro st h; omega
  | succ fuel ih =>
    intro st hfuel hbase hle hinv hc
    unfold load_loop
    by_cases hlt : st.loadptr < endptr
    · have hk := hinv hlt
      have hrem : 512 * st.calls < size := by omega
      have hread : sized_file size st.calls = ((min 512 (size - 512 * st.calls) : Nat) : Int) := by
        simp [sized_file, hrem]
      have hpos : sized_file size st.calls > 0 := by
        rw [hread]; omega
      simp only [hlt, if_true, hpos]
      apply ih
      · simp only [hread, Int.toNat_ofNat]; omega
      · simp only; omega
      · simp only [hread, Int.toNat_ofNat]; omega
      · simp only [hread, Int.toNat_ofNat]; omega
      · simp only [hread, EOF]; omega
    · exact ⟨st, by simp [hlt], hc, hlt⟩

/-- C5: for every load window and every file that opens and whose size is strictly
greater than `loadLimit - loadBase` (reads delivering `min(512, remaining)` bytes, `EOF`
only once no bytes remain), `execute_bin_file` returns through the error branch that
reports "Too large"; it does not jump to the load address. -/
theorem execute_bin_file_too_large (loadBase loadLimit size : Nat) (no_sd_boot : Bool)
    (hsize : loadLimit - loadBase < size) :
    (∃ bytes, execute_bin_file loadBase loadLimit no_sd_boot (some (sized_file size)) =
      some (ExecOutcome.error (asc "Too large") bytes)) ∧
    (∀ bytes d, execute_bin_file loadBase loadLimit no_sd_boot (some (sized_file size)) ≠
      some (ExecOutcome.jump bytes d)) := by
  obtain ⟨st2, h1, h2, h3⟩ := load_loop_too_large loadBase loadLimit size hsize
    (loadLimit - loadBase + 1)
    { loadptr := loadBase, c := 0, b := 0, calls := 0, dots := 0 }
    (by simp only; omega) (by simp) (by simp) (by simp) (by simp [EOF])
  have h : execute_bin_file loadBase loadLimit no_sd_boot (some (sized_file size)) =
      some (ExecOutcome.error (asc "Too large") ((st2.loadptr - loadBase) % 4294967296)) := by
    simp [execute_bin_file, h1, h2, h3]
  refine ⟨⟨_, h⟩, ?_⟩
  intro bytes d
  rw [h]
  simp

/-- Witness of C5: a window of 1024 bytes and a file of 1025 bytes. -/
theorem execute_bin_file_too_large_witness :
    (∃ bytes, execute_bin_file 0x40000 0x40400 false (some (sized_file 1025)) =
      some (ExecOutcome.error (asc "Too large") bytes)) ∧
    (∀ bytes d, execute_bin_file 0x40000 0x40400 false (some (sized_file 1025)) ≠
      some (ExecOutcome.jump bytes d)) :=
  execute_bin_file_too_large 0x40000 0x40400 1025 false (by decide)

theorem rd_append_right (pre rest : List Nat) (j : Nat) :
    rd (pre ++ rest) (pre.length + j) = rd rest j := by
  simp [rd, List.getD_eq_getElem?_getD, List.getElem?_append_right]

theorem rd_at (pre rest : List Nat) : rd (pre ++ rest) pre.length = rd rest 0 := by
  simpa using rd_append_right pre rest 0

theorem skip_spaces_run (a : Nat) :
    ∀ (pre rest : List Nat) (fuel : Nat), a < fuel → rd rest 0 ≠ 32 →
      skip_spaces (pre ++ (List.replicate a 32 ++ rest)) fuel pre.length = pre.length + a := by
  induction a with
  | zero =>
    intro pre rest fuel hf hr
    obtain ⟨f, rfl⟩ : ∃ f, fuel = f + 1 := ⟨fuel - 1, by omega⟩
    simp [skip_spaces, rd_at, hr]
  | succ a ih =>
    intro pre rest fuel hf hr
    obtain ⟨f, rfl⟩ : ∃ f, fuel = f + 1 := ⟨fuel - 1, by omega⟩
    have h32 : rd (pre ++ (List.replicate (a + 1) 32 ++ rest)) pre.length = 32 := by
      rw [rd_at]; simp [rd, List.replicate_succ]
    have hbuf : pre ++ (List.replicate (a + 1) 32 ++ rest) =
        (pre ++ [32]) ++ (List.replicate a 32 ++ rest) := by
      simp [List.replicate_succ]
    have := ih (pre ++ [32]) rest f (by omega) hr
    simp only [List.length_append, List.length_singleton] at this
    simp only [skip_spaces, h32, if_true]
    rw [hbuf, this]; omega

theorem skip_word_run (w : List Nat) :
    ∀ (pre rest : List Nat) (fuel : Nat), w.length < fuel →
      (∀ x ∈ w, x ≠ 0 ∧ x ≠ 32) → (rd rest 0 = 0 ∨ rd rest 0 = 32) →
      skip_word (pre ++ (w ++ rest)) fuel pre.length = pre.length + w.length := by
  induction w with
  | nil =>
    intro pre rest fuel hf _ hr
    obtain ⟨f, rfl⟩ : ∃ f, fuel = f + 1 := ⟨fuel - 1, by omega⟩
    have : ¬ (rd rest 0 ≠ 0 ∧ rd rest 0 ≠ 32) := by
      rcases hr with h | h <;> simp [h]
    simp [skip_word, rd_at, this]
  | cons x w ih =>
    intro pre rest fuel hf hw hr
    simp only [List.length_cons] at hf
    obtain ⟨f, rfl⟩ : ∃ f, fuel = f + 1 := ⟨fuel - 1, by omega⟩
    have hx := hw x (by simp)
    have hrd : rd (pre ++ (x :: w ++ rest)) pre.length = x := by
      rw [rd_at]; simp [rd]
    have hbuf : pre ++ (x :: w ++ rest) = (pre ++ [x]) ++ (w ++ rest) := by simp
    have := ih (pre ++ [x]) rest f (by omega) (fun y hy => hw y (by simp [hy])) hr
    simp only [List.length_append, List.length_singleton] at this
    simp only [skip_word, hrd, hx, ne_eq, not_false_eq_true, and_self, if_true]
    rw [hbuf, this]; simp only [List.length_cons]; omega

theorem set_at (pre rest : List Nat) (x y : Nat) :
    (pre ++ x :: rest).set pre.length y = pre ++ y :: rest := by
  induction pre with
  | nil => simp
  | cons p pre ih => simp [ih]

theorem cstr_at (w : List Nat) (pre rest : List Nat) (hw : ∀ x ∈ w, x ≠ 0)
    (hr : rd rest 0 = 0) : cstr (pre ++ (w ++ rest)) pre.length = w := by
  unfold cstr
  rw [List.drop_left]
  induction w with
  | nil =>
    cases rest with
    | nil => simp
    | cons r rest => simp [rd] at hr; simp [hr]
  | cons x w ih =>
    have hx := hw x (by simp)
    simp only [List.cons_append, List.takeWhile_cons, hx, ne_eq, not_false_eq_true,
      decide_True, if_true]
    rw [ih (fun y hy => hw y (by simp [hy]))]

/-- The tokenizer on a line `(spaces) cmd (spaces) arg (spaces)`. -/
theorem tokenize_line (a b c : Nat) (cmd arg : List Nat)
    (hcmd : cmd ≠ []) (harg : arg ≠ [])
    (hc : ∀ x ∈ cmd, x ≠ 0 ∧ x ≠ 32) (ha : ∀ x ∈ arg, x ≠ 0 ∧ x ≠ 32)
    (hlen : (List.replicate a 32 ++ cmd ++ List.replicate (b + 1) 32 ++ arg ++
      List.replicate c 32).length ≤ 255) :
    (tokenize (cmd_line_of (List.replicate a 32 ++ cmd ++ List.replicate (b + 1) 32 ++ arg ++
      List.replicate c 32))).cmd_str = cmd ∧
    (tokenize (cmd_line_of (List.replicate a 32 ++ cmd ++ List.replicate (b + 1) 32 ++ arg ++
      List.replicate c 32))).arg_str = arg ++ List.replicate c 32 := by
  obtain ⟨c0, cmd1, rfl⟩ := List.exists_cons_of_ne_nil hcmd
  obtain ⟨a0, arg1, rfl⟩ := List.exists_cons_of_ne_nil harg
  have hc0 := hc c0 (by simp)
  have ha0 := ha a0 (by simp)
  simp only [List.length_append, List.length_replicate, List.length_cons] at hlen
  set n := 256 - (List.replicate a 32 ++ c0 :: cmd1 ++ List.replicate (b + 1) 32 ++
    a0 :: arg1 ++ List.replicate c 32).length with hn
  have hnpos : 0 < n := by
    simp only [List.length_append, List.length_replicate, List.length_cons] at hn
    omega
  obtain ⟨m, hm⟩ : ∃ m, n = m + 1 := ⟨n - 1, by omega⟩
  set Z := List.replicate n 0 with hZ
  have hZ0 : rd Z 0 = 0 := by rw [hZ, hm]; simp [rd, List.replicate_succ]
  have hbuf : cmd_line_of (List.replicate a 32 ++ c0 :: cmd1 ++ List.replicate (b + 1) 32 ++
      a0 :: arg1 ++ List.replicate c 32) =
      [] ++ (List.replicate a 32 ++
        (c0 :: cmd1 ++ (32 :: (List.replicate b 32 ++ (a0 :: arg1 ++
          (List.replicate c 32 ++ Z)))))) := by
    simp [cmd_line_of, hZ, hn, List.replicate_succ]
  have hbuflen : (cmd_line_of (List.replicate a 32 ++ c0 :: cmd1 ++ List.replicate (b + 1) 32 ++
      a0 :: arg1 ++ List.replicate c 32)).length = 256 := by
    simp only [cmd_line_of, List.length_append, List.length_replicate, List.length_cons]
    omega
  have h1 : skip_spaces (cmd_line_of (List.replicate a 32 ++ c0 :: cmd1 ++
      List.replicate (b + 1) 32 ++ a0 :: arg1 ++ List.replicate c 32)) 257 0 = a := by
    rw [hbuf]
    have := skip_spaces_run a [] (c0 :: cmd1 ++ (32 :: (List.replicate b 32 ++ (a0 :: arg1 ++
          (List.replicate c 32 ++ Z))))) 257 (by omega) (by simpa [rd] using hc0.2)
    simpa using this
  have hbuf2 : cmd_line_of (List.replicate a 32 ++ c0 :: cmd1 ++ List.replicate (b + 1) 32 ++
      a0 :: arg1 ++ List.replicate c 32) =
      List.replicate a 32 ++
        ((c0 :: cmd1) ++ (32 :: (List.replicate b 32 ++ (a0 :: arg1 ++
          (List.replicate c 32 ++ Z))))) := by
    rw [hbuf]; simp
  have h2 : skip_word (cmd_line_of (List.replicate a 32 ++ c0 :: cmd1 ++
      List.replicate (b + 1) 32 ++ a0 :: arg1 ++ List.replicate c 32)) 257 a =
      a + (cmd1.length + 1) := by
    rw [hbuf2]
    have := skip_word_run (c0 :: cmd1) (List.replicate a 32)
      (32 :: (List.replicate b 32 ++ (a0 :: arg1 ++ (List.replicate c 32 ++ Z)))) 257
      (by simp only [List.length_cons]; omega) hc (by simp [rd])
    simpa using this
  have h3 : (cmd_line_of (List.replicate a 32 ++ c0 :: cmd1 ++
      List.replicate (b + 1) 32 ++ a0 :: arg1 ++ List.replicate c 32)).set
        (a + (cmd1.length + 1)) 0 =
      (List.replicate a 32 ++ (c0 :: cmd1)) ++
        (0 :: (List.replicate b 32 ++ (a0 :: arg1 ++ (List.replicate c 32 ++ Z)))) := by
    rw [hbuf2]
    have := set_at (List.replicate a 32 ++ (c0 :: cmd1))
      (List.replicate b 32 ++ (a0 :: arg1 ++ (List.replicate c 32 ++ Z))) 32 0
    rw [List.length_append, List.length_replicate, List.length_cons] at this
    rw [← this, List.append_assoc]
  have h4 : skip_spaces ((List.replicate a 32 ++ (c0 :: cmd1)) ++
        (0 :: (List.replicate b 32 ++ (a0 :: arg1 ++ (List.replicate c 32 ++ Z))))) 257
        (a + (cmd1.length + 1) + 1) = a + (cmd1.length + 1) + 1 + b := by
    have := skip_spaces_run b (List.replicate a 32 ++ (c0 :: cmd1) ++ [0])
      (a0 :: arg1 ++ (List.replicate c 32 ++ Z)) 257 (by omega)
      (by simpa [rd] using ha0.2)
    simpa using this
  have h5 : cstr ((List.replicate a 32 ++ (c0 :: cmd1)) ++
        (0 :: (List.replicate b 32 ++ (a0 :: arg1 ++ (List.replicate c 32 ++ Z))))) a =
      c0 :: cmd1 := by
    have := cstr_at (c0 :: cmd1) (List.replicate a 32)
      (0 :: (List.replicate b 32 ++ (a0 :: arg1 ++ (List.replicate c 32 ++ Z))))
      (fun x hx => (hc x hx).1) (by simp [rd])
    simpa using this
  have h6 : cstr ((List.replicate a 32 ++ (c0 :: cmd1)) ++
        (0 :: (List.replicate b 32 ++ (a0 :: arg1 ++ (List.replicate c 32 ++ Z)))))
        (a + (cmd1.length + 1) + 1 + b) = a0 :: arg1 ++ List.replicate c 32 := by
    have := cstr_at (a0 :: arg1 ++ List.replicate c 32)
      (List.replicate a 32 ++ (c0 :: cmd1) ++ [0] ++ List.replicate b 32) Z
      (by
        intro x hx
        rcases List.mem_append.1 hx with h | h
        · exact (ha x h).1
        · rw [List.mem_replicate] at h; omega)
      hZ0
    have hidx : a + (cmd1.length + 1) + 1 + b =
        (List.replicate a 32 ++ (c0 :: cmd1) ++ [0] ++ List.replicate b 32).length := by
      simp only [List.length_append, List.length_replicate, List.length_cons,
        List.length_singleton, List.length_nil]
    rw [hidx]
    simpa using this
  simp only [tokenize, Tokens.cmd_str, Tokens.arg_str, hbuflen, h1, h2, h3, h4, h5, h6]
  exact ⟨trivial, trivial⟩

/-- C6 (as stated, refuted): on the line "  run  foo.bin " the argument passed to the
`run` command is "foo.bin " with its trailing space, not "foo.bin". -/
theorem command_dispatch_keeps_trailing_space :
    command_dispatch (cmd_line_of (asc "  run  foo.bin ")) =
      Dispatch.execute_bin_file (asc "foo.bin ") ∧
    command_dispatch (cmd_line_of (asc "  run  foo.bin ")) ≠
      Dispatch.execute_bin_file (asc "foo.bin") := by
  set_option maxRecDepth 100000 in decide

/-- C6 (amended): for every line `(spaces) cmd (one or more spaces) arg (spaces)` of at
most 255 characters, where `cmd` and `arg` are not empty and contain neither a space nor
a NUL, the tokenizer yields the command token `cmd` and the argument `arg` followed by
the trailing spaces of the line: leading spaces are removed, trailing spaces are kept.
The command that `cmd` selects in the command table is dispatched: `dir`, `cd`, `run`,
`type`, `dump` and `crc` are called with that argument, `boot`, `upload` and `exit` take
no argument, and a token that selects no command prints the help table; these are all
the cases.  "run" and "RUN" both select `run`. -/
theorem command_prompt_tokenizer (a b c : Nat) (cmd arg line : List Nat)
    (hline : line = List.replicate a 32 ++ cmd ++ List.replicate (b + 1) 32 ++ arg ++
      List.replicate c 32)
    (hcmd : cmd ≠ []) (harg : arg ≠ [])
    (hc : ∀ x ∈ cmd, x ≠ 0 ∧ x ≠ 32) (ha : ∀ x ∈ arg, x ≠ 0 ∧ x ≠ 32)
    (hlen : line.length ≤ 255) :
    (tokenize (cmd_line_of line)).cmd_str = cmd ∧
    (tokenize (cmd_line_of line)).arg_str = arg ++ List.replicate c 32 ∧
    (cmd_lookup cmd = CMD_DIR → command_dispatch (cmd_line_of line) =
      Dispatch.dir_operation (arg ++ List.replicate c 32)) ∧
    (cmd_lookup cmd = CMD_CD → command_dispatch (cmd_line_of line) =
      Dispatch.change_dir (arg ++ List.replicate c 32)) ∧
    (cmd_lookup cmd = CMD_RUN → command_dispatch (cmd_line_of line) =
      Dispatch.execute_bin_file (arg ++ List.replicate c 32)) ∧
    (cmd_lookup cmd = CMD_TYPE → command_dispatch (cmd_line_of line) =
      Dispatch.file_operation_type (arg ++ List.replicate c 32)) ∧
    (cmd_lookup cmd = CMD_DUMP → command_dispatch (cmd_line_of line) =
      Dispatch.file_operation_dump (arg ++ List.replicate c 32)) ∧
    (cmd_lookup cmd = CMD_CRC → command_dispatch (cmd_line_of line) =
      Dispatch.file_operation_crc (arg ++ List.replicate c 32)) ∧
    (cmd_lookup cmd = CMD_BOOT → command_dispatch (cmd_line_of line) =
      Dispatch.warm_boot_keep) ∧
    (cmd_lookup cmd = CMD_UPLOAD → command_dispatch (cmd_line_of line) =
      Dispatch.warm_boot_no_sd) ∧
    (cmd_lookup cmd = CMD_EXIT → command_dispatch (cmd_line_of line) = Dispatch.exit) ∧
    (cmd_lookup cmd = NUM_CMD → command_dispatch (cmd_line_of line) = Dispatch.help) ∧
    cmd_lookup cmd ≤ NUM_CMD ∧
    cmd_lookup (asc "run") = CMD_RUN ∧ cmd_lookup (asc "RUN") = CMD_RUN := by
  subst hline
  obtain ⟨h1, h2⟩ := tokenize_line a b c cmd arg hcmd harg hc ha hlen
  have hpos : ¬ cmd.length < 1 := by
    cases cmd with
    | nil => exact absurd rfl hcmd
    | cons x xs => simp
  have hle : cmd_lookup cmd ≤ NUM_CMD := by
    unfold cmd_lookup
    exact List.findIdx_le_length _
  refine ⟨h1, h2, ?_, ?_, ?_, ?_, ?_, ?_, ?_, ?_, ?_, ?_, hle, by decide, by decide⟩ <;>
    intro h <;> simp only [command_dispatch, h1, h2, hpos, if_false, h] <;> rfl

/-- Witness of C6 (amended): the line "  run  foo.bin " calls `execute_bin_file` with
"foo.bin ", and the line "dir  A " calls `dir_operation` with "A ". -/
theorem command_prompt_tokenizer_witness :
    (tokenize (cmd_line_of (asc "  run  foo.bin "))).cmd_str = asc "run" ∧
    (tokenize (cmd_line_of (asc "  run  foo.bin "))).arg_str = asc "foo.bin " ∧
    command_dispatch (cmd_line_of (asc "  run  foo.bin ")) =
      Dispatch.execute_bin_file (asc "foo.bin ") ∧
    command_dispatch (cmd_line_of (asc "dir  A ")) = Dispatch.dir_operation (asc "A ") := by
  have h := command_prompt_tokenizer 2 1 1 (asc "run") (asc "foo.bin") (asc "  run  foo.bin ")
    (by decide) (by decide) (by decide) (by decide) (by decide) (by decide)
  have h2 := command_prompt_tokenizer 0 1 1 (asc "dir") (asc "A") (asc "dir  A ")
    (by decide) (by decide) (by decide) (by decide) (by decide) (by decide)
  exact ⟨h.1, h.2.1.trans (by decide), (h.2.2.2.2.1 (by decide)).trans (by decide),
    (h2.2.2.1 (by decide)).trans (by decide)⟩

theorem strrchr_loop_absent (c : Nat) (s : List Nat) (hs : ∀ x ∈ s, x ≠ c) :
    ∀ (i : Nat) (last : Option Nat), strrchr_loop c s i last = last := by
  induction s with
  | nil => intro i last; rfl
  | cons x xs ih =>
    intro i last
    have hx := hs x (by simp)
    simp only [strrchr_loop, hx, if_false]
    exact ih (fun y hy => hs y (by simp [hy])) (i + 1) last

theorem strrchr_loop_last (c : Nat) (s : List Nat) (hs : ∀ x ∈ s, x ≠ c) (q : List Nat) :
    ∀ (i : Nat) (last : Option Nat),
      strrchr_loop c (q ++ c :: s) i last = some (i + q.length) := by
  induction q with
  | nil =>
    intro i last
    simp only [List.nil_append, strrchr_loop, if_true, List.length_nil, Nat.add_zero]
    exact strrchr_loop_absent c s hs (i + 1) (some i)
  | cons x xs ih =>
    intro i last
    have h := ih (i + 1) (if x = c then some i else last)
    simp only [List.length_cons]
    rw [show i + (xs.length + 1) = i + 1 + xs.length by omega, ← h]
    rfl

theorem cstr_path_buffer (N : Nat) (p : List Nat) (hp : ∀ x ∈ p, x ≠ 0) :
    cstr (path_buffer N p) 0 = p := by
  have h := cstr_at p [] (List.replicate (N - p.length) 0) hp (by
    cases hk : N - p.length with
    | zero => simp [rd]
    | succ k => simp [rd, List.replicate_succ])
  simpa [path_buffer] using h

theorem rd_path_buffer_end (N : Nat) (p : List Nat) :
    rd (path_buffer N p) p.length = 0 := by
  unfold path_buffer
  rw [rd_at]
  cases hk : N - p.length with
  | zero => simp [rd]
  | succ k => simp [rd, List.replicate_succ]

/-- The branch ".." of `change_dir` on a path with a separator: everything from the last
separator on is cleared. -/
theorem change_dir_up_segment (N : Nat) (fl_is_dir : List Nat → Bool) (q s : List Nat)
    (hq : ∀ x ∈ q, x ≠ 0) (hs : ∀ x ∈ s, x ≠ 0 ∧ x ≠ 47) (hN : q.length + 1 + s.length < N) :
    change_dir N fl_is_dir (path_buffer N (q ++ 47 :: s)) (asc "..") = path_buffer N q := by
  have hp : ∀ x ∈ q ++ 47 :: s, x ≠ 0 := by
    intro x hx
    rcases List.mem_append.1 hx with h | h
    · exact hq x h
    · rcases List.mem_cons.1 h with h | h
      · omega
      · exact (hs x h).1
  have hcstr := cstr_path_buffer N (q ++ 47 :: s) hp
  have hlen : strlen (path_buffer N (q ++ 47 :: s)) = (q ++ 47 :: s).length := by
    simp [strlen, hcstr]
  have hrd : ¬ rd (path_buffer N (q ++ 47 :: s)) (strlen (path_buffer N (q ++ 47 :: s))) = 47 := by
    rw [hlen, rd_path_buffer_end]; omega
  have hrchr : strrchr (path_buffer N (q ++ 47 :: s)) 47 = some q.length := by
    simp only [strrchr, hcstr]
    rw [strrchr_loop_last 47 s (fun x hx => (hs x hx).2)]
    simp
  have hcmp : strcmp (asc "..") (asc "..") = 0 := by decide
  simp only [change_dir, hcmp, if_true, hrd, if_false, hrchr]
  have hbl : (path_buffer N (q ++ 47 :: s)).length = N := by
    simp only [path_buffer, List.length_append, List.length_replicate, List.length_cons]
    omega
  have htake : (path_buffer N (q ++ 47 :: s)).take q.length = q := by
    simp [path_buffer, List.take_append_eq_append_take]
  have hdrop : (path_buffer N (q ++ 47 :: s)).drop (q.length + (N - q.length)) = [] := by
    apply List.drop_eq_nil_of_le
    rw [hbl]; omega
  rw [memset, htake, hdrop, List.append_nil]
  rfl

/-- The branch ".." of `change_dir` on a path without a separator: the array is cleared. -/
theorem change_dir_up_single (N : Nat) (fl_is_dir : List Nat → Bool) (s : List Nat)
    (hs : ∀ x ∈ s, x ≠ 0 ∧ x ≠ 47) (hN : s.length < N) :
    change_dir N fl_is_dir (path_buffer N s) (asc "..") = path_buffer N [] := by
  have hcstr := cstr_path_buffer N s (fun x hx => (hs x hx).1)
  have hlen : strlen (path_buffer N s) = s.length := by simp [strlen, hcstr]
  have hrd : ¬ rd (path_buffer N s) (strlen (path_buffer N s)) = 47 := by
    rw [hlen, rd_path_buffer_end]; omega
  have hrchr : strrchr (path_buffer N s) 47 = none := by
    simp only [strrchr, hcstr]
    exact strrchr_loop_absent 47 s (fun x hx => (hs x hx).2) 0 none
  have hcmp : strcmp (asc "..") (asc "..") = 0 := by decide
  simp only [change_dir, hcmp, if_true, hrd, if_false, hrchr]
  have hbl : (path_buffer N s).length = N := by
    simp only [path_buffer, List.length_append, List.length_replicate]
    omega
  have hdrop : (path_buffer N s).drop (0 + (N - 0)) = [] := by
    apply List.drop_eq_nil_of_le
    rw [hbl]; omega
  rw [memset, hdrop, List.append_nil, List.take_zero, List.nil_append]
  rfl

/-- C7: `change_dir("..")` removes exactly the last separator-delimited segment of the
current path: a stored path `q/s` (with `s` free of separators) becomes `q`, for example
"A/B" becomes "A"; a single segment becomes the root; the root (stored "") stays the
root, also after any number of applications. -/
theorem change_dir_dotdot (N : Nat) (fl_is_dir : List Nat → Bool) :
    (∀ q s : List Nat, (∀ x ∈ q, x ≠ 0) → (∀ x ∈ s, x ≠ 0 ∧ x ≠ 47) →
      q.length + 1 + s.length < N →
      change_dir N fl_is_dir (path_buffer N (q ++ asc "/" ++ s)) (asc "..") =
        path_buffer N q) ∧
    (∀ s : List Nat, (∀ x ∈ s, x ≠ 0 ∧ x ≠ 47) → s.length < N →
      change_dir N fl_is_dir (path_buffer N s) (asc "..") = path_buffer N (asc "")) ∧
    (0 < N → ∀ k : Nat,
      (fun d => change_dir N fl_is_dir d (asc ".."))^[k] (path_buffer N (asc "")) =
        path_buffer N (asc "")) ∧
    (3 < N → change_dir N fl_is_dir (path_buffer N (asc "A/B")) (asc "..") =
      path_buffer N (asc "A")) := by
  have hsl : asc "/" = [47] := by decide
  have he : asc "" = [] := by decide
  refine ⟨?_, ?_, ?_, ?_⟩
  · intro q s hq hs hN
    rw [hsl, List.append_assoc]
    exact change_dir_up_segment N fl_is_dir q s hq hs hN
  · intro s hs hN
    rw [he]
    exact change_dir_up_single N fl_is_dir s hs hN
  · intro hN k
    apply Function.iterate_fixed
    rw [he]
    exact change_dir_up_single N fl_is_dir [] (by simp) (by simpa using hN)
  · intro hN
    have hAB : asc "A/B" = asc "A" ++ 47 :: asc "B" := by decide
    rw [hAB]
    exact change_dir_up_segment N fl_is_dir (asc "A") (asc "B") (by decide) (by decide)
      (by simp [asc]; omega)

/-- Witness of C7 with `N = 260`: from "A/B" to "A", from "A" to the root, and the root
stays the root. -/
theorem change_dir_dotdot_witness :
    change_dir 260 (fun _ => true) (path_buffer 260 (asc "A" ++ asc "/" ++ asc "B")) (asc "..") =
      path_buffer 260 (asc "A") ∧
    change_dir 260 (fun _ => true) (path_buffer 260 (asc "A")) (asc "..") =
      path_buffer 260 (asc "") ∧
    (fun d => change_dir 260 (fun _ => true) d (asc ".."))^[5] (path_buffer 260 (asc "")) =
      path_buffer 260 (asc "") :=
  ⟨(change_dir_dotdot 260 (fun _ => true)).1 (asc "A") (asc "B") (by decide) (by decide)
      (by decide),
    (change_dir_dotdot 260 (fun _ => true)).2.1 (asc "A") (by decide) (by decide),
    (change_dir_dotdot 260 (fun _ => true)).2.2.1 (by decide) 5⟩

theorem too_many_msgs_ne : too_many_files_msg ≠ too_many_dirs_msg := by decide

theorem get_menu_files_step_counts (N : Nat) (st : MenuState) (e : DirEnt) :
    (get_menu_files_step N st e).num_menu_files =
      st.num_menu_files + (if is_menu_file e then 1 else 0) ∧
    (get_menu_files_step N st e).num_dir_files =
      st.num_dir_files + (if is_menu_dir e then 1 else 0) := by
  unfold get_menu_files_step is_menu_file is_menu_dir
  cases hd : e.is_dir
  · by_cases h4 : e.filename.length ≥ 4
    · by_cases hb : strcasecmp (e.filename.drop (e.filename.length - 4)) (asc ".bin") = 0
      · simp only [Bool.not_false, if_true, h4, hb, true_or]
        split <;> [skip; split] <;> simp [h4]
      · by_cases ht : strcasecmp (e.filename.drop (e.filename.length - 4)) (asc ".txt") = 0
        · simp only [Bool.not_false, if_true, h4, ht, or_true]
          split <;> [skip; split] <;> simp [h4, ht]
        · simp [h4, hb, ht]
    · have h4b : ¬ 4 ≤ e.filename.length := h4
      simp [h4b]
  · by_cases hdot : strcmp e.filename (asc ".") = 0
    · simp [hdot]
    · simp only [Bool.not_true, Bool.false_eq_true, if_false, ne_eq, hdot, not_false_eq_true,
        if_true]
      split <;> [skip; split] <;> simp [hdot]

theorem get_menu_files_step_inv (N : Nat) (st : MenuState) (e : DirEnt) (h : ScanInv st) :
    ScanInv (get_menu_files_step N st e) := by
  obtain ⟨h1, h2, h3, h4⟩ := h
  have hne := too_many_msgs_ne
  unfold get_menu_files_step
  by_cases hd : e.is_dir = true
  · by_cases hdot : strcmp e.filename (asc ".") = 0
    · simp only [hd, hdot]
      exact ⟨h1, h2, h3, h4⟩
    · simp only [hd, Bool.not_true, Bool.false_eq_true, if_false, ne_eq, hdot,
        not_false_eq_true, if_true]
      by_cases hlt : st.num_dir_files < MAX_DIR_FILES
      · have hlt2 : ¬ MAX_DIR_FILES < st.num_dir_files := by omega
        have hlt3 : ¬ MAX_DIR_FILES < st.num_dir_files + 1 := by omega
        simp only [hlt2, if_false, decide_False] at h2 h4
        simp only [hlt, if_true]
        refine ⟨h1, ?_, h3, ?_⟩
        · simp [hlt3, h2]
        · simp [hlt3, h4]
      · have hgt : MAX_DIR_FILES < st.num_dir_files + 1 := by omega
        simp only [hlt, if_false]
        by_cases hflag : st.too_many_dirs = true
        · have hgt0 : MAX_DIR_FILES < st.num_dir_files := by
            rw [h2] at hflag; simpa using hflag
          simp only [hgt0, if_true] at h4
          simp only [hflag, Bool.not_true, Bool.false_eq_true, if_false]
          refine ⟨h1, ?_, h3, ?_⟩
          · simp [hgt, hflag]
          · simp [hgt, h4]
        · have hgt0 : ¬ MAX_DIR_FILES < st.num_dir_files := by
            rw [h2] at hflag; simpa using hflag
          simp only [hgt0, if_false] at h4
          have hflag2 : st.too_many_dirs = false := by simpa using hflag
          simp only [hflag2, Bool.not_false, if_true]
          refine ⟨h1, ?_, ?_, ?_⟩
          · simp [hgt]
          · simp only [List.count_append, h3]
            simp [List.count_cons, hne.symm]
          · simp only [List.count_append, h4]
            simp [hgt]
  · have hd2 : e.is_dir = false := by simpa using hd
    simp only [hd2, Bool.not_false, if_true]
    by_cases hm : e.filename.length ≥ 4 ∧
        (strcasecmp (e.filename.drop (e.filename.length - 4)) (asc ".bin") = 0 ∨
         strcasecmp (e.filename.drop (e.filename.length - 4)) (asc ".txt") = 0)
    · simp only [hm.1, hm.2, if_true]
      by_cases hlt : st.num_menu_files < MAX_BIN_FILES
      · have hlt2 : ¬ MAX_BIN_FILES < st.num_menu_files := by omega
        have hlt3 : ¬ MAX_BIN_FILES < st.num_menu_files + 1 := by omega
        simp only [hlt2, if_false, decide_False] at h1 h3
        simp only [hlt, if_true]
        refine ⟨?_, h2, ?_, h4⟩
        · simp [hlt3, h1]
        · simp [hlt3, h3]
      · have hgt : MAX_BIN_FILES < st.num_menu_files + 1 := by omega
        simp only [hlt, if_false]
        by_cases hflag : st.too_many_files = true
        · have hgt0 : MAX_BIN_FILES < st.num_menu_files := by
            rw [h1] at hflag; simpa using hflag
          simp only [hgt0, if_true] at h3
          simp only [hflag, Bool.not_true, Bool.false_eq_true, if_false]
          refine ⟨?_, h2, ?_, h4⟩
          · simp [hgt, hflag]
          · simp [hgt, h3]
        · have hgt0 : ¬ MAX_BIN_FILES < st.num_menu_files := by
            rw [h1] at hflag; simpa using hflag
          simp only [hgt0, if_false] at h3
          have hflag2 : st.too_many_files = false := by simpa using hflag
          simp only [hflag2, Bool.not_false, if_true]
          refine ⟨?_, h2, ?_, ?_⟩
          · simp [hgt]
          · simp only [List.count_append, h3]
            simp [hgt]
          · simp only [List.count_append, h4]
            simp [List.count_cons, hne]
    · by_cases hl : e.filename.length ≥ 4
      · have hm2 : ¬ (strcasecmp (e.filename.drop (e.filename.length - 4)) (asc ".bin") = 0 ∨
         strcasecmp (e.filename.drop (e.filename.length - 4)) (asc ".txt") = 0) :=
          fun hx => hm ⟨hl, hx⟩
        simp only [hl, if_true, hm2, if_false]
        exact ⟨h1, h2, h3, h4⟩
      · simp only [hl, if_false]
        exact ⟨h1, h2, h3, h4⟩

theorem get_menu_files_fold (N : Nat) (entries : List DirEnt) :
    ∀ st : MenuState, ScanInv st →
      ScanInv (entries.foldl (get_menu_files_step N) st) ∧
      (entries.foldl (get_menu_files_step N) st).num_menu_files =
        st.num_menu_files + entries.countP is_menu_file ∧
      (entries.foldl (get_menu_files_step N) st).num_dir_files =
        st.num_dir_files + entries.countP is_menu_dir := by
  induction entries with
  | nil => intro st h; exact ⟨h, by simp, by simp⟩
  | cons e es ih =>
    intro st h
    obtain ⟨i1, i2, i3⟩ := ih (get_menu_files_step N st e) (get_menu_files_step_inv N st e h)
    obtain ⟨c1, c2⟩ := get_menu_files_step_counts N st e
    refine ⟨i1, ?_, ?_⟩
    · simp only [List.foldl_cons, i2, c1, List.countP_cons]; omega
    · simp only [List.foldl_cons, i3, c2, List.countP_cons]; omega

/-- With a store behind `bin_sizes` that changes nothing, the scan is `get_menu_files`. -/
theorem get_menu_files_layout_nothing (N : Nat) (listing : Option (List DirEnt)) :
    get_menu_files_layout N (fun _ _ st => st) listing = get_menu_files N listing := by
  have hstep : ∀ (st : MenuState) (e : DirEnt), st.bin_sizes.length = MAX_BIN_FILES →
      get_menu_files_step_layout N (fun _ _ st => st) st e = get_menu_files_step N st e ∧
      (get_menu_files_step N st e).bin_sizes.length = MAX_BIN_FILES := by
    intro st e hlen
    by_cases hd : e.is_dir = true
    · by_cases hdot : strcmp e.filename (asc ".") = 0
      · simp only [get_menu_files_step_layout, get_menu_files_step, hd, Bool.not_true,
          Bool.false_eq_true, if_false, hdot, ne_eq, not_true_eq_false, hlen, and_self]
      · simp only [get_menu_files_step_layout, get_menu_files_step, hd, Bool.not_true,
          Bool.false_eq_true, if_false, hdot, ne_eq, not_false_eq_true, if_true, true_and]
        split <;> [skip; split] <;> exact hlen
    · have hd2 : e.is_dir = false := by simpa using hd
      by_cases hm : e.filename.length ≥ 4 ∧
          (strcasecmp (e.filename.drop (e.filename.length - 4)) (asc ".bin") = 0 ∨
           strcasecmp (e.filename.drop (e.filename.length - 4)) (asc ".txt") = 0)
      · simp only [get_menu_files_step_layout, get_menu_files_step, hd2, Bool.not_false,
          if_true, hm.1, hm.2]
        by_cases hlt : st.num_menu_files < MAX_BIN_FILES
        · simp only [hlt, if_true, List.length_set, hlen, and_self]
        · by_cases hflag : st.too_many_files = true
          · simp only [hlt, if_false, hflag, Bool.not_true, Bool.false_eq_true,
              List.length_set, hlen, and_true]
            rw [List.set_eq_of_length_le (by omega)]
          · have hflag2 : st.too_many_files = false := by simpa using hflag
            simp only [hlt, if_false, hflag2, Bool.not_false, if_true,
              List.length_set, hlen, and_true]
            rw [List.set_eq_of_length_le (by omega)]
      · by_cases hl : e.filename.length ≥ 4
        · have hm2 : ¬ (strcasecmp (e.filename.drop (e.filename.length - 4)) (asc ".bin") = 0 ∨
           strcasecmp (e.filename.drop (e.filename.length - 4)) (asc ".txt") = 0) :=
            fun hx => hm ⟨hl, hx⟩
          simp only [get_menu_files_step_layout, get_menu_files_step, hd2, Bool.not_false,
            if_true, hl, hm2, if_false, hlen, and_self]
        · simp only [get_menu_files_step_layout, get_menu_files_step, hd2, Bool.not_false,
            if_true, hl, if_false, hlen, and_self]
  have hfold : ∀ (entries : List DirEnt) (st : MenuState),
      st.bin_sizes.length = MAX_BIN_FILES →
      entries.foldl (get_menu_files_step_layout N (fun _ _ st => st)) st =
        entries.foldl (get_menu_files_step N) st := by
    intro entries
    induction entries with
    | nil => intro st _; rfl
    | cons e es ih =>
      intro st hlen
      obtain ⟨h1, h2⟩ := hstep st e hlen
      rw [List.foldl_cons, List.foldl_cons, h1]
      exact ih _ h2
  cases listing with
  | none => rfl
  | some entries =>
    simp only [get_menu_files_layout, get_menu_files]
    exact hfold entries _ (by simp [get_menu_files_init])

theorem show_dirs_loop_eq (n half : Nat) :
    ∀ fuel i, fuel + i = n →
      show_dirs_loop n half fuel i =
        (List.range' i fuel).map (fun t => (48 + t / 2 + (if t % 2 = 1 then half else 0)) % 256) := by
  intro fuel
  induction fuel with
  | zero => intro i _; simp [show_dirs_loop]
  | succ fuel ih =>
    intro i hi
    have hlt : i < n := by omega
    have hand : (i &&& 1 ≠ 0) ↔ i % 2 = 1 := by
      rw [Nat.and_one_is_mod]; omega
    simp only [show_dirs_loop, hlt, if_true, hand, List.range'_succ, List.map_cons]
    rw [ih (i + 1) (by omega)]

theorem show_menu_dirs_keys_eq (n : Nat) :
    show_menu_dirs_keys n =
      (List.range n).map
        (fun t => (48 + t / 2 + (if t % 2 = 1 then (n + 1) / 2 else 0)) % 256) := by
  unfold show_menu_dirs_keys
  have h := show_dirs_loop_eq n ((n + 1) / 2) n 0 (by omega)
  simpa [List.range_eq_range'] using h

theorem menu_key_letter (n d k : Nat) (hk : k ≤ 25) :
    menu_key n d (65 + k) =
      if (if k ≥ (n + 1) / 2 then ((k - (n + 1) / 2) * 2) + 1 else k * 2) ≥ n
      then KeyAction.rejected
      else KeyAction.select_file
        (if k ≥ (n + 1) / 2 then ((k - (n + 1) / 2) * 2) + 1 else k * 2) := by
  have h1 : ¬ (97 ≤ 65 + k ∧ 65 + k ≤ 122) := by omega
  have h2 : ¬ (65 + k = 13) := by omega
  have h3 : 65 + k ≥ 65 ∧ 65 + k ≤ 90 := by omega
  have h4 : 65 + k - 65 = k := by omega
  simp only [menu_key, toupper, h1, h2, h3, h4, if_false, if_true, and_self]

theorem menu_key_digit (f n k : Nat) (hk : k ≤ 9) :
    menu_key f n (48 + k) =
      if (if k ≥ (n + 1) / 2 then ((k - (n + 1) / 2) * 2) + 1 else k * 2) ≥ n
      then KeyAction.rejected
      else KeyAction.select_dir
        (if k ≥ (n + 1) / 2 then ((k - (n + 1) / 2) * 2) + 1 else k * 2) := by
  have h1 : ¬ (97 ≤ 48 + k ∧ 48 + k ≤ 122) := by omega
  have h2 : ¬ (48 + k = 13) := by omega
  have h3 : ¬ (48 + k ≥ 65 ∧ 48 + k ≤ 90) := by omega
  have h5 : 48 + k ≥ 48 ∧ 48 + k ≤ 57 := by omega
  have h4 : 48 + k - 48 = k := by omega
  simp only [menu_key, toupper, h1, h2, h3, h4, h5, if_false, if_true, and_self]

/-- The decoding of the menu loop undoes the offset given by the renderer. -/
theorem decode_assign (n i : Nat) (hi : i < n) :
    (if i / 2 + (if i % 2 = 1 then (n + 1) / 2 else 0) ≥ (n + 1) / 2
      then ((i / 2 + (if i % 2 = 1 then (n + 1) / 2 else 0) - (n + 1) / 2) * 2) + 1
      else (i / 2 + (if i % 2 = 1 then (n + 1) / 2 else 0)) * 2) = i := by
  by_cases hodd : i % 2 = 1
  · simp only [hodd, if_true]
    have : i / 2 + (n + 1) / 2 ≥ (n + 1) / 2 := by omega
    simp only [this, if_true]
    omega
  · simp only [hodd, if_false, Nat.add_zero]
    have : ¬ i / 2 ≥ (n + 1) / 2 := by omega
    simp only [this, if_false]
    omega

/-- C9: the key decoding of the menu loop is the inverse of the key assignment of the
renderer: for every `n ≤ 26` files (and every `n ≤ 10` directories, with digit keys) and
every flat index `i < n`, the key printed for `i` selects `i`; and every letter (digit)
whose offset `k` is at least `n` is rejected. -/
theorem menu_key_inverts_keys :
    (∀ n i d key, n ≤ 26 → i < n → (show_menu_files_keys n)[i]? = some key →
      menu_key n d key = KeyAction.select_file i) ∧
    (∀ n i f key, n ≤ 10 → i < n → (show_menu_dirs_keys n)[i]? = some key →
      menu_key f n key = KeyAction.select_dir i) ∧
    (∀ n d k, n ≤ k → k ≤ 25 → menu_key n d (65 + k) = KeyAction.rejected) ∧
    (∀ n f k, n ≤ k → k ≤ 9 → menu_key f n (48 + k) = KeyAction.rejected) := by
  refine ⟨?_, ?_, ?_, ?_⟩
  · intro n i d key hn hi hkey
    rw [show_menu_files_keys_eq] at hkey
    have hoff : i / 2 + (if i % 2 = 1 then (n + 1) / 2 else 0) ≤ 25 := by
      split <;> omega
    have hb : 65 + i / 2 + (if i % 2 = 1 then (n + 1) / 2 else 0) < 256 := by omega
    simp only [List.getElem?_map, List.getElem?_range hi, Option.map_some',
      Nat.mod_eq_of_lt hb, Option.some.injEq] at hkey
    rw [← hkey, Nat.add_assoc, menu_key_letter n d _ hoff, decode_assign n i hi]
    simp [hi]
  · intro n i f key hn hi hkey
    rw [show_menu_dirs_keys_eq] at hkey
    have hoff : i / 2 + (if i % 2 = 1 then (n + 1) / 2 else 0) ≤ 9 := by
      split <;> omega
    have hb : 48 + i / 2 + (if i % 2 = 1 then (n + 1) / 2 else 0) < 256 := by omega
    simp only [List.getElem?_map, List.getElem?_range hi, Option.map_some',
      Nat.mod_eq_of_lt hb, Option.some.injEq] at hkey
    rw [← hkey, Nat.add_assoc, menu_key_digit f n _ hoff, decode_assign n i hi]
    simp [hi]
  · intro n d k hnk hk
    rw [menu_key_letter n d k hk]
    have h1 : k ≥ (n + 1) / 2 := by omega
    have h2 : (k - (n + 1) / 2) * 2 + 1 ≥ n := by omega
    simp only [h1, if_true, h2]
  · intro n f k hnk hk
    rw [menu_key_digit f n k hk]
    have h1 : k ≥ (n + 1) / 2 := by omega
    have h2 : (k - (n + 1) / 2) * 2 + 1 ≥ n := by omega
    simp only [h1, if_true, h2]

/-- Witness of C9: with three files the key 'C' printed for index 1 selects index 1, with
three directories the key '1' printed for index 2 selects index 2, and the keys 'D' and
'3' are rejected. -/
theorem menu_key_inverts_keys_witness :
    menu_key 3 0 67 = KeyAction.select_file 1 ∧ menu_key 0 3 49 = KeyAction.select_dir 2 ∧
    menu_key 3 0 (65 + 3) = KeyAction.rejected ∧ menu_key 0 3 (48 + 3) = KeyAction.rejected :=
  ⟨menu_key_inverts_keys.1 3 1 0 67 (by decide) (by decide) (by decide),
   menu_key_inverts_keys.2.1 3 2 0 49 (by decide) (by decide) (by decide),
   menu_key_inverts_keys.2.2.1 3 0 3 (by decide) (by decide),
   menu_key_inverts_keys.2.2.2 3 0 3 (by decide) (by decide)⟩

/-- C10 (the code at a failing input): with 27 menu files in the listing the counter
`num_menu_files` is 27 and the key 'N' (78) selects index 26, past the 26 elements of
`menu_files`; with 11 directories the key '5' (53) selects index 10, past the 10 elements
of `dir_files`. -/
theorem menu_key_selects_past_capacity :
    (get_menu_files 260 (some (List.replicate 27 ⟨asc "a.bin", false, 1⟩))).num_menu_files = 27 ∧
    (get_menu_files 260 (some (List.replicate 27 ⟨asc "a.bin", false, 1⟩))).menu_files.length
      = 26 ∧
    menu_key (get_menu_files 260 (some (List.replicate 27 ⟨asc "a.bin", false, 1⟩))).num_menu_files
      (get_menu_files 260 (some (List.replicate 27 ⟨asc "a.bin", false, 1⟩))).num_dir_files 78 =
      KeyAction.select_file 26 ∧
    (get_menu_files 260 (some (List.replicate 11 ⟨asc "d", true, 0⟩))).num_dir_files = 11 ∧
    (get_menu_files 260 (some (List.replicate 11 ⟨asc "d", true, 0⟩))).dir_files.length = 10 ∧
    menu_key (get_menu_files 260 (some (List.replicate 11 ⟨asc "d", true, 0⟩))).num_menu_files
      (get_menu_files 260 (some (List.replicate 11 ⟨asc "d", true, 0⟩))).num_dir_files 53 =
      KeyAction.select_dir 10 := by
  set_option maxRecDepth 100000 in decide

theorem get_menu_files_step_written (N : Nat) (st : MenuState) (e : DirEnt) :
    (get_menu_files_step N st e).bin_sizes_written =
      st.bin_sizes_written ++ (if is_menu_file e then [st.num_menu_files] else []) := by
  unfold get_menu_files_step is_menu_file
  cases hd : e.is_dir
  · by_cases h4 : e.filename.length ≥ 4
    · by_cases hb : strcasecmp (e.filename.drop (e.filename.length - 4)) (asc ".bin") = 0
      · simp only [Bool.not_false, if_true, h4, hb, true_or]
        split <;> [skip; split] <;> simp [h4]
      · by_cases ht : strcasecmp (e.filename.drop (e.filename.length - 4)) (asc ".txt") = 0
        · simp only [Bool.not_false, if_true, h4, ht, or_true]
          split <;> [skip; split] <;> simp [h4, ht]
        · simp [h4, hb, ht]
    · have h4b : ¬ 4 ≤ e.filename.length := h4
      simp [h4b]
  · by_cases hdot : strcmp e.filename (asc ".") = 0
    · simp [hdot]
    · simp only [Bool.not_true, Bool.false_eq_true, if_false, ne_eq, hdot, not_false_eq_true,
        if_true]
      split <;> [skip; split] <;> simp

theorem get_menu_files_fold_written (N : Nat) (entries : List DirEnt) :
    ∀ st : MenuState,
      (entries.foldl (get_menu_files_step N) st).bin_sizes_written =
        st.bin_sizes_written ++
          List.range' st.num_menu_files (entries.countP is_menu_file) := by
  induction entries with
  | nil => intro st; simp
  | cons e es ih =>
    intro st
    rw [List.foldl_cons, ih, get_menu_files_step_written, (get_menu_files_step_counts N st e).1,
      List.countP_cons]
    by_cases hm : is_menu_file e = true
    · simp only [hm, if_true, List.append_assoc, List.singleton_append]
      rw [List.range'_succ]
    · simp [hm]

/-- C11 (the code at a failing input): the statement `bin_sizes[num_menu_files] =
dirent.size` is executed for every menu file, at the indices 0, 1, 2, ... in scan order;
with 27 menu files in the listing it is executed at index 26, past the 26 elements of
`bin_sizes`. -/
theorem get_menu_files_stores_size_past_capacity :
    (∀ (N : Nat) (entries : List DirEnt),
      (get_menu_files N (some entries)).bin_sizes_written =
        List.range (entries.countP is_menu_file)) ∧
    (get_menu_files 260 (some (List.replicate 27 ⟨asc "a.bin", false, 1⟩))).bin_sizes_written =
      List.range 27 ∧
    26 ∈ (get_menu_files 260
      (some (List.replicate 27 ⟨asc "a.bin", false, 1⟩))).bin_sizes_written ∧
    (get_menu_files 260 (some (List.replicate 27 ⟨asc "a.bin", false, 1⟩))).bin_sizes.length =
      26 := by
  have hgen : ∀ (N : Nat) (entries : List DirEnt),
      (get_menu_files N (some entries)).bin_sizes_written =
        List.range (entries.countP is_menu_file) := by
    intro N entries
    simp only [get_menu_files]
    rw [get_menu_files_fold_written]
    simp [get_menu_files_init, List.range_eq_range']
  have h27 : (List.replicate 27 (⟨asc "a.bin", false, 1⟩ : DirEnt)).countP is_menu_file = 27 := by
    decide
  refine ⟨hgen, ?_, ?_, ?_⟩
  · rw [hgen, h27]
  · rw [hgen, h27]; decide
  · set_option maxRecDepth 100000 in decide

theorem tolower_eq_zero (x : Nat) : tolower x = 0 ↔ x = 0 := by
  unfold tolower
  split <;> omega

/-- On C strings (no NUL inside) `strcasecmp` returns 0 exactly when the two strings are
equal after `tolower`. -/
theorem strcasecmp_eq_zero_iff (a : List Nat) :
    ∀ b : List Nat, (∀ x ∈ a, x ≠ 0) → (∀ x ∈ b, x ≠ 0) →
      (strcasecmp a b = 0 ↔ a.map tolower = b.map tolower) := by
  induction a with
  | nil =>
    intro b _ hb
    cases b with
    | nil => simp [strcasecmp]
    | cons y ys =>
      have hy : tolower y ≠ 0 := fun h => hb y (by simp) ((tolower_eq_zero y).1 h)
      simp only [strcasecmp, List.map_nil, List.map_cons]
      constructor
      · intro h; omega
      · intro h; exact absurd h (by simp)
  | cons x xs ih =>
    intro b ha hb
    cases b with
    | nil =>
      have hx : tolower x ≠ 0 := fun h => ha x (by simp) ((tolower_eq_zero x).1 h)
      simp only [strcasecmp, List.map_nil, List.map_cons]
      constructor
      · intro h; omega
      · intro h; exact absurd h (by simp)
    | cons y ys =>
      have ih2 := ih ys (fun z hz => ha z (by simp [hz])) (fun z hz => hb z (by simp [hz]))
      simp only [strcasecmp, List.map_cons, List.cons.injEq]
      by_cases hxy : tolower x = tolower y
      · simp only [hxy, if_true, true_and]
        exact ih2
      · simp only [hxy, if_false, false_and, iff_false]
        omega

/-- C13 (the code at failing inputs): for `v = 4294967295`, the value `dir_operation`
passes when the total size is clamped, the sum `v + round` wraps around and the text is
"0.0G" (4294967295 / 1024^3 is 3.99...); for `v = 10189` (9.95 units of 1024) and
`v = 16360` (15.98 units) the integer branch adds `(1024 / 1000) / 2 = 0` and the texts
are "9K" and "15K"; for `v = 1993` (1.95 units) the text is "1.10K". -/
theorem friendly_size_rounding_failures :
    friendly_size 4294967295 = asc "0.0G" ∧
    friendly_size 10189 = asc "9K" ∧
    friendly_size 16360 = asc "15K" ∧
    friendly_size 1993 = asc "1.10K" := by
  decide

/-- C14 (the code at a failing input): for `v = 1993` the sum `v + round` is
`1 * 1024 + 1020` and the tenths are `1020 / 102 = 10`, so the text is "1.10K", five
characters with a two-digit tenths part. -/
theorem friendly_size_five_characters :
    friendly_size 1993 = [49, 46, 49, 48, 75] ∧ (friendly_size 1993).length = 5 ∧
    sub32 (add32 1993 51) (mul32 1 1024) / 102 = 10 := by
  decide

theorem rd_zeros (l : List Nat) (h : ∀ x ∈ l, x = 0) : rd l 0 = 0 := by
  cases l with
  | nil => simp [rd]
  | cons x xs => simpa [rd] using h x (by simp)

/-- The branch of `fullpath` for a name that begins with '/'. -/
theorem fullpath_absolute (N : Nat) (current_dir path : List Nat)
    (hp : ∀ x ∈ path, x ≠ 0) (habs : path.head? = some 47) :
    fullpath N current_dir path = path.take (N - 1) := by
  simp only [fullpath, habs, if_true, strncpy]
  have h := cstr_at (path.take (N - 1)) []
    (List.replicate (N - 1 - path.length) 0 ++ (List.replicate N 0).drop (N - 1))
    (fun x hx => hp x (List.mem_of_mem_take hx))
    (rd_zeros _ (by
      intro x hx
      rcases List.mem_append.1 hx with h | h
      · exact (List.mem_replicate.1 h).2
      · exact (List.mem_replicate.1 (List.mem_of_mem_drop h)).2))
  simpa using h

/-- C15: for every name (a C string) and every array `current_dir`, with `N ≥ 3` the size
of the arrays: `fullpath(name)` is `name` cut to `N - 1` characters when `name` begins
with '/'; otherwise it is '/' + name when the current path is empty and
'/' + current path + '/' + name when it is not, cut to `N - 2` characters; the result
begins with '/' and is shorter than `N`, so it is NUL-terminated within `filename`. -/
theorem fullpath_cases (N : Nat) (current_dir path : List Nat) (hN : 3 ≤ N)
    (hp : ∀ x ∈ path, x ≠ 0) :
    (path.head? = some 47 → fullpath N current_dir path = path.take (N - 1)) ∧
    (path.head? ≠ some 47 → cstr current_dir 0 = [] →
      fullpath N current_dir path = (asc "/" ++ path).take (N - 2)) ∧
    (path.head? ≠ some 47 → cstr current_dir 0 ≠ [] →
      fullpath N current_dir path =
        (asc "/" ++ cstr current_dir 0 ++ asc "/" ++ path).take (N - 2)) ∧
    (fullpath N current_dir path).head? = some 47 ∧
    (fullpath N current_dir path).length < N := by
  have hsl : asc "/" = [47] := by decide
  have hrel : ∀ (habs : ¬ path.head? = some 47),
      fullpath N current_dir path =
        (asc "/" ++ cstr current_dir 0 ++
          (if strlen current_dir > 0 then asc "/" else []) ++ path).take (N - 2) := by
    intro habs
    simp only [fullpath, habs, if_false, snprintf]
    rfl
  refine ⟨fullpath_absolute N current_dir path hp, ?_, ?_, ?_, ?_⟩
  · intro habs hroot
    rw [hrel habs]
    simp [strlen, hroot]
  · intro habs hnroot
    rw [hrel habs]
    have : strlen current_dir > 0 := by
      simp only [strlen]
      exact List.length_pos.2 hnroot
    simp [this]
  · by_cases habs : path.head? = some 47
    · rw [fullpath_absolute N current_dir path hp habs]
      cases path with
      | nil => simp at habs
      | cons x xs =>
        obtain ⟨m, hm⟩ : ∃ m, N - 1 = m + 1 := ⟨N - 2, by omega⟩
        simpa [hm] using habs
    · rw [hrel habs, hsl]
      obtain ⟨m, hm⟩ : ∃ m, N - 2 = m + 1 := ⟨N - 3, by omega⟩
      simp [hm]
  · by_cases habs : path.head? = some 47
    · rw [fullpath_absolute N current_dir path hp habs, List.length_take]
      omega
    · rw [hrel habs, List.length_take]
      omega

/-- Witness of C15 with `N = 260`: the name "/x.bin" is returned as it is, and with the
current path "A" the name "x.bin" gives "/A/x.bin". -/
theorem fullpath_cases_witness :
    fullpath 260 (path_buffer 260 (asc "A")) (asc "/x.bin") = asc "/x.bin" ∧
    fullpath 260 (path_buffer 260 (asc "A")) (asc "x.bin") = asc "/A/x.bin" := by
  have h1 := (fullpath_cases 260 (path_buffer 260 (asc "A")) (asc "/x.bin") (by decide)
    (by decide)).1 (by decide)
  have h2 := (fullpath_cases 260 (path_buffer 260 (asc "A")) (asc "x.bin") (by decide)
    (by decide)).2.2.1 (by decide) (by set_option maxRecDepth 100000 in decide)
  refine ⟨h1.trans (by decide), h2.trans ?_⟩
  set_option maxRecDepth 100000 in decide

/-- C16 (the code at a failing input): with the stored path "A/B/" the test
`current_dir[strlen(current_dir)] == '/'` reads the terminating NUL, nothing is
stripped, and `change_dir("..")` only removes the trailing separator: the result is
"A/B", not "A". -/
theorem change_dir_trailing_separator_kept :
    rd (path_buffer 260 (asc "A/B/")) (strlen (path_buffer 260 (asc "A/B/"))) = 0 ∧
    change_dir 260 (fun _ => true) (path_buffer 260 (asc "A/B/")) (asc "..") =
      path_buffer 260 (asc "A/B") ∧
    change_dir 260 (fun _ => true) (path_buffer 260 (asc "A/B/")) (asc "..") ≠
      path_buffer 260 (asc "A") := by
  set_option maxRecDepth 100000 in decide

theorem strcasecmp_keyword (w k : List Nat) (hw : ∀ x ∈ w, x ≠ 0) (hk : ∀ x ∈ k, x ≠ 0)
    (hlow : k.map tolower = k) :
    decide (strcasecmp w k = 0) = decide (w.map tolower = k) := by
  have h := strcasecmp_eq_zero_iff w k hw hk
  rw [hlow] at h
  exact decide_eq_decide.2 h

/-- The lookup loop agrees with the command table of the specification on the token in
lower case. -/
theorem cmd_lookup_eq_spec (w : List Nat) (hw : ∀ x ∈ w, x ≠ 0) :
    cmd_lookup w = spec_command_of (w.map tolower) := by
  have k1 := strcasecmp_keyword w (asc "dir") hw (by decide) (by decide)
  have k2 := strcasecmp_keyword w (asc "ls") hw (by decide) (by decide)
  have k3 := strcasecmp_keyword w (asc "cd") hw (by decide) (by decide)
  have k4 := strcasecmp_keyword w (asc "run") hw (by decide) (by decide)
  have k5 := strcasecmp_keyword w (asc "type") hw (by decide) (by decide)
  have k6 := strcasecmp_keyword w (asc "cat") hw (by decide) (by decide)
  have k7 := strcasecmp_keyword w (asc "dump") hw (by decide) (by decide)
  have k8 := strcasecmp_keyword w (asc "crc") hw (by decide) (by decide)
  have k9 := strcasecmp_keyword w (asc "boot") hw (by decide) (by decide)
  have k10 := strcasecmp_keyword w (asc "upload") hw (by decide) (by decide)
  have k11 := strcasecmp_keyword w (asc "/") hw (by decide) (by decide)
  have k12 := strcasecmp_keyword w (asc "exit") hw (by decide) (by decide)
  have k13 := strcasecmp_keyword w (asc "x") hw (by decide) (by decide)
  simp only [cmd_lookup, cmd_table, List.findIdx_cons, List.findIdx_nil, cmd_matches,
    k1, k2, k3, k4, k5, k6, k7, k8, k9, k10, k11, k12, k13, spec_command_of,
    CMD_DIR, CMD_CD, CMD_RUN, CMD_TYPE, CMD_DUMP, CMD_CRC, CMD_BOOT, CMD_UPLOAD, CMD_EXIT,
    NUM_CMD, cond_eq_if, Bool.or_eq_true, decide_eq_true_eq, Bool.false_eq_true, or_false]
  generalize w.map tolower = t
  clear k1 k2 k3 k4 k5 k6 k7 k8 k9 k10 k11 k12 k13
  split_ifs <;> rfl

/-- C17: for every command token `w` (a C string), the lookup loop selects the command
whose keyword or alias equals `w` without regard to case: dir/ls, cd, run, type/cat,
dump, crc, boot, upload and "/", exit/x each select their own index; a token that equals
no keyword and no alias selects none (`NUM_CMD`), and such a token, when not empty, makes
`command_prompt` print the help table. -/
theorem cmd_lookup_resolves (w : List Nat) (hw : ∀ x ∈ w, x ≠ 0) :
    cmd_lookup w = spec_command_of (w.map tolower) ∧
    (w.map tolower = asc "dir" ∨ w.map tolower = asc "ls" → cmd_lookup w = CMD_DIR) ∧
    (w.map tolower = asc "cd" → cmd_lookup w = CMD_CD) ∧
    (w.map tolower = asc "run" → cmd_lookup w = CMD_RUN) ∧
    (w.map tolower = asc "type" ∨ w.map tolower = asc "cat" → cmd_lookup w = CMD_TYPE) ∧
    (w.map tolower = asc "dump" → cmd_lookup w = CMD_DUMP) ∧
    (w.map tolower = asc "crc" → cmd_lookup w = CMD_CRC) ∧
    (w.map tolower = asc "boot" → cmd_lookup w = CMD_BOOT) ∧
    (w.map tolower = asc "upload" ∨ w.map tolower = asc "/" → cmd_lookup w = CMD_UPLOAD) ∧
    (w.map tolower = asc "exit" ∨ w.map tolower = asc "x" → cmd_lookup w = CMD_EXIT) ∧
    (w.map tolower ∉ [asc "dir", asc "ls", asc "cd", asc "run", asc "type", asc "cat",
        asc "dump", asc "crc", asc "boot", asc "upload", asc "/", asc "exit", asc "x"] →
      cmd_lookup w = NUM_CMD) ∧
    (w ≠ [] →
      w.map tolower ∉ [asc "dir", asc "ls", asc "cd", asc "run", asc "type", asc "cat",
        asc "dump", asc "crc", asc "boot", asc "upload", asc "/", asc "exit", asc "x"] →
      ∀ cmd_line, (tokenize cmd_line).cmd_str = w →
        command_dispatch cmd_line = Dispatch.help) := by
  have hspec := cmd_lookup_eq_spec w hw
  have hnone : w.map tolower ∉ [asc "dir", asc "ls", asc "cd", asc "run", asc "type",
      asc "cat", asc "dump", asc "crc", asc "boot", asc "upload", asc "/", asc "exit",
      asc "x"] → cmd_lookup w = NUM_CMD := by
    intro h
    simp only [List.mem_cons, List.mem_singleton, not_or, List.not_mem_nil, or_false] at h
    obtain ⟨h1, h2, h3, h4, h5, h6, h7, h8, h9, h10, h11, h12, h13⟩ := h
    rw [hspec]
    simp only [spec_command_of, h1, h2, h3, h4, h5, h6, h7, h8, h9, h10, h11, h12, h13,
      or_self, if_false]
  refine ⟨hspec, ?_, ?_, ?_, ?_, ?_, ?_, ?_, ?_, ?_, hnone, ?_⟩
  · rintro (h | h) <;> rw [hspec, h] <;> decide
  · intro h; rw [hspec, h]; decide
  · intro h; rw [hspec, h]; decide
  · rintro (h | h) <;> rw [hspec, h] <;> decide
  · intro h; rw [hspec, h]; decide
  · intro h; rw [hspec, h]; decide
  · intro h; rw [hspec, h]; decide
  · rintro (h | h) <;> rw [hspec, h] <;> decide
  · rintro (h | h) <;> rw [hspec, h] <;> decide
  · intro hne hno cmd_line hcs
    have hpos : ¬ w.length < 1 := by
      cases w with
      | nil => exact absurd rfl hne
      | cons x xs => simp
    simp only [command_dispatch, hcs, hpos, if_false, hnone hno]
    rfl

/-- Witness of C17: "DiR" and "LS" select `dir`, "/" selects `upload`, and the line
"help" prints the help table. -/
theorem cmd_lookup_resolves_witness :
    cmd_lookup (asc "DiR") = CMD_DIR ∧ cmd_lookup (asc "LS") = CMD_DIR ∧
    cmd_lookup (asc "/") = CMD_UPLOAD ∧
    command_dispatch (cmd_line_of (asc "help")) = Dispatch.help :=
  ⟨(cmd_lookup_resolves (asc "DiR") (by decide)).2.1 (Or.inl (by decide)),
   (cmd_lookup_resolves (asc "LS") (by decide)).2.1 (Or.inr (by decide)),
   (cmd_lookup_resolves (asc "/") (by decide)).2.2.2.2.2.2.2.2.1 (Or.inr (by decide)),
   (cmd_lookup_resolves (asc "help") (by decide)).2.2.2.2.2.2.2.2.2.2.2 (by decide)
     (by decide) (cmd_line_of (asc "help")) (by set_option maxRecDepth 100000 in decide)⟩

/-- C18 (the code at a failing input): the help table printed for an unrecognized
command, for example the line "help".  The hint is "[dir]" for dir and cd, "<file>" for
run, type, dump and crc, and empty for upload and exit; for boot, a command without
argument, the hint is "<file>" as well, because the test is `cmd_num < CMD_UPLOAD`. -/
theorem command_help_boot_hint :
    command_dispatch (cmd_line_of (asc "help")) = Dispatch.help ∧
    cmd_arg CMD_BOOT = asc "<file>" ∧
    command_help = [
      asc "SD Card prompt commands:\n",
      asc " dir      [dir]  Directory listing (alias ls)\n",
      asc " cd       [dir]  Change current dir\n",
      asc " run      <file> Load and execute BIN file\n",
      asc " type     <file> Display ASCII file (alias cat)\n",
      asc " dump     <file> Dump file in hex and ASCII\n",
      asc " crc      <file> CRC-32 of file\n",
      asc " boot     <file> Warm-boot\n",
      asc " upload          Warm-boot without SD card boot (alias /)\n",
      asc " exit            Exit to menu in current dir (alias x)\n"] := by
  set_option maxRecDepth 100000 in decide

/-- The load loop on a file smaller than the window: it stops on `EOF` with the whole
file loaded. -/
theorem load_loop_fits (base endptr size : Nat) (hsize : base + size < endptr) :
    ∀ fuel (st : LoadState), size - (st.loadptr - base) < fuel → base ≤ st.loadptr →
      st.loadptr - base = min (512 * st.calls) size →
      ∃ st2, load_loop endptr (sized_file size) fuel st = some st2 ∧ st2.c = EOF ∧
        st2.loadptr = base + size := by
  intro fuel
  induction fuel with
  | zero => intro st h; omega
  | succ fuel ih =>
    intro st hfuel hbase hinv
    unfold load_loop
    have hlt : st.loadptr < endptr := by omega
    by_cases hrem : 512 * st.calls < size
    · have hread : sized_file size st.calls = ((min 512 (size - 512 * st.calls) : Nat) : Int) := by
        simp [sized_file, hrem]
      have hpos : sized_file size st.calls > 0 := by
        rw [hread]; omega
      simp only [hlt, if_true, hpos]
      apply ih
      · simp only [hread, Int.toNat_ofNat]; omega
      · simp only; omega
      · simp only [hread, Int.toNat_ofNat]; omega
    · have hread : sized_file size st.calls = EOF := by
        simp [sized_file, hrem]
      have hnpos : ¬ sized_file size st.calls > 0 := by
        rw [hread]; decide
      simp only [hlt, if_true, hnpos, if_false]
      refine ⟨_, rfl, hread, ?_⟩
      simp only; omega

/-- The load loop on a file at least as large as the window: it stops with the window
exhausted and a last read result that is not `EOF`. -/
theorem load_loop_window_exhausted (base endptr size : Nat) (hsize : endptr - base ≤ size) :
    ∀ fuel (st : LoadState), endptr - st.loadptr < fuel → base ≤ st.loadptr →
      st.loadptr - base ≤ size → (st.loadptr < endptr → st.loadptr - base = 512 * st.calls) →
      st.c ≠ EOF →
      ∃ st2, load_loop endptr (sized_file size) fuel st = some st2 ∧ st2.c ≠ EOF ∧
        ¬ st2.loadptr < endptr := by
  intro fuel
  induction fuel with
  | zero => intro st h; omega
  | succ fuel ih =>
    intro st hfuel hbase hle hinv hc
    unfold load_loop
    by_cases hlt : st.loadptr < endptr
    · have hk := hinv hlt
      have hrem : 512 * st.calls < size := by omega
      have hread : sized_file size st.calls = ((min 512 (size - 512 * st.calls) : Nat) : Int) := by
        simp [sized_file, hrem]
      have hpos : sized_file size st.calls > 0 := by
        rw [hread]; omega
      simp only [hlt, if_true, hpos]
      apply ih
      · simp only [hread, Int.toNat_ofNat]; omega
      · simp only; omega
      · simp only [hread, Int.toNat_ofNat]; omega
      · simp only [hread, Int.toNat_ofNat]; omega
      · simp only [hread, EOF]; omega
    · exact ⟨st, by simp [hlt], hc, hlt⟩

/-- C19 (as stated, refuted): a file of exactly the size of the window, here 1024 bytes
in a window of 1024 bytes, does not end on end-of-file: "Too large" is reported although
no source data remains, and there is no handoff. -/
theorem execute_bin_file_exact_fit_too_large :
    execute_bin_file 0x40000 0x40400 false (some (sized_file 1024)) =
      some (ExecOutcome.error (asc "Too large") 1024) ∧
    execute_bin_file 0x40000 0x40400 false (some (sized_file 1024)) ≠
      some (ExecOutcome.jump 1024 false) := by
  decide

/-- C19 (amended): for every file that opens and whose size is strictly less than
`loadLimit - loadBase`, with every read succeeding, `execute_bin_file` ends on
end-of-file, counts exactly the size of the file as loaded bytes and jumps to the load
address; a file whose size is equal to or greater than `loadLimit - loadBase` exhausts
the window before end-of-file is read and is reported as "Too large", without a jump. -/
theorem execute_bin_file_fits (loadBase loadLimit size : Nat) (no_sd_boot : Bool)
    (hlim : loadLimit < 4294967296) :
    (size < loadLimit - loadBase →
      execute_bin_file loadBase loadLimit no_sd_boot (some (sized_file size)) =
        some (ExecOutcome.jump size no_sd_boot)) ∧
    (loadLimit - loadBase ≤ size →
      ∃ bytes, execute_bin_file loadBase loadLimit no_sd_boot (some (sized_file size)) =
        some (ExecOutcome.error (asc "Too large") bytes)) := by
  constructor
  · intro hsize
    obtain ⟨st2, h1, h2, h3⟩ := load_loop_fits loadBase loadLimit size (by omega)
      (loadLimit - loadBase + 1)
      { loadptr := loadBase, c := 0, b := 0, calls := 0, dots := 0 }
      (by simp only; omega) (by simp) (by simp)
    have hb : (st2.loadptr - loadBase) % 4294967296 = size := by
      rw [h3]
      have : loadBase + size - loadBase = size := by omega
      rw [this]
      exact Nat.mod_eq_of_lt (by omega)
    simp [execute_bin_file, h1, h2, hb]
  · intro hsize
    obtain ⟨st2, h1, h2, h3⟩ := load_loop_window_exhausted loadBase loadLimit size hsize
      (loadLimit - loadBase + 1)
      { loadptr := loadBase, c := 0, b := 0, calls := 0, dots := 0 }
      (by simp only; omega) (by simp) (by simp) (by simp) (by simp [EOF])
    exact ⟨(st2.loadptr - loadBase) % 4294967296, by simp [execute_bin_file, h1, h2, h3]⟩

/-- Witness of C19 (amended): in a window of 1024 bytes a file of 1023 bytes is loaded
and started, a file of 1024 bytes is reported as "Too large". -/
theorem execute_bin_file_fits_witness :
    execute_bin_file 0x40000 0x40400 true (some (sized_file 1023)) =
      some (ExecOutcome.jump 1023 true) ∧
    (∃ bytes, execute_bin_file 0x40000 0x40400 true (some (sized_file 1024)) =
      some (ExecOutcome.error (asc "Too large") bytes)) :=
  ⟨(execute_bin_file_fits 0x40000 0x40400 1023 true (by decide)).1 (by decide),
   (execute_bin_file_fits 0x40000 0x40400 1024 true (by decide)).2 (by decide)⟩

/-- C20 (the code at a failing input): with a window of 1000 bytes and a file of 1024
bytes the second `fl_fread(loadptr, 512, 1, file)` is issued at offset 512, because
`loadptr < endptr`, and delivers 512 bytes: the loop ends with `loadptr` 24 bytes past
`endptr`, and 1024 bytes have been copied.  With a window of 1024 bytes and the read
results 100, 512, 512 the third read is issued at offset 612 and 1124 bytes have been
copied. -/
theorem execute_bin_file_copies_past_window :
    load_loop (0x40000 + 1000) (sized_file 1024) (1000 + 1)
      { loadptr := 0x40000, c := 0, b := 0, calls := 0, dots := 0 } =
      some { loadptr := 0x40000 + 1000 + 24, c := 512, b := 2, calls := 2, dots := 0 } ∧
    execute_bin_file 0x40000 (0x40000 + 1000) false (some (sized_file 1024)) =
      some (ExecOutcome.error (asc "Too large") 1024) ∧
    (0x40000 + 1000) - 0x40000 < 1024 ∧
    execute_bin_file 0x40000 (0x40000 + 1024) false
        (some (fun k => if k = 0 then 100 else 512)) =
      some (ExecOutcome.error (asc "Too large") 1124) := by
  decide

/-- C21 (as stated, refuted): with `suppress` true, no high-memory region reserved
(`_SDB_MEM_SIZE = _INITIAL_STACK`) and no magic at `_INITIAL_STACK`, `warm_boot` calls
`resident_init`; it does so as well when the magic is already there. -/
theorem warm_boot_installs_without_reserved_region :
    warm_boot true 0x100000 0x100000 0 = true ∧
    warm_boot true 0x100000 0x100000 0xb007c0de = true := by
  decide

/-- C21 (amended): `warm_boot(suppress)` calls `resident_init` if and only if `suppress`
is true and either no high-memory region is reserved (`_SDB_MEM_SIZE - _INITIAL_STACK` is
0) or the magic 0xb007c0de is not present at `_INITIAL_STACK`; when `suppress` is false,
or when a region is reserved and already marked, nothing is written before the warm
restart. -/
theorem warm_boot_installs_iff (suppress : Bool) (SDB_MEM_SIZE INITIAL_STACK word : Nat)
    (h1 : SDB_MEM_SIZE < 4294967296) (h2 : INITIAL_STACK < 4294967296) :
    warm_boot suppress SDB_MEM_SIZE INITIAL_STACK word = true ↔
      suppress = true ∧ (SDB_MEM_SIZE = INITIAL_STACK ∨ word ≠ 0xb007c0de) := by
  have hres : sub32 SDB_MEM_SIZE INITIAL_STACK = 0 ↔ SDB_MEM_SIZE = INITIAL_STACK := by
    unfold sub32
    rw [Nat.mod_eq_of_lt h1, Nat.mod_eq_of_lt h2]
    omega
  cases suppress
  · simp [warm_boot]
  · simp only [warm_boot, disable_sd_boot, if_true, hres, true_and]
    by_cases h : SDB_MEM_SIZE = INITIAL_STACK ∨ word ≠ 0xb007c0de
    · simp [h]
    · simp [h]

/-- Witness of C21 (amended): with a region reserved and the magic present nothing is
installed; with a region reserved and no magic `resident_init` is called. -/
theorem warm_boot_installs_iff_witness :
    warm_boot true 0x100000 0xFF000 0xb007c0de ≠ true ∧
    warm_boot true 0x100000 0xFF000 0 = true :=
  ⟨fun h => by
      have h3 := (warm_boot_installs_iff true 0x100000 0xFF000 0xb007c0de (by decide)
        (by decide)).1 h
      revert h3
      decide,
   (warm_boot_installs_iff true 0x100000 0xFF000 0 (by decide) (by decide)).2 (by decide)⟩

/-- The loop of `file_operation` when the `k`-th read is the first that is not positive. -/
theorem file_operation_loop_run (op_func : FileOpState → List Nat → Int → FileOpState)
    (hop : ∀ st p l, (op_func st p l).filesize = st.filesize)
    (fread : Nat → ReadResult) (k : Nat) (hpos : ∀ j, j < k → (fread j).c > 0)
    (hend : ¬ (fread k).c > 0) :
    ∀ fuel j (st : FileOpState), j ≤ k → k - j < fuel → st.filesize < 4294967296 →
      ∃ st2, file_operation_loop op_func fread fuel j st = some (st2, (fread k).c) ∧
        st2.op_calls = st.op_calls ++ (List.range' j (k - j)).map (fun i => (fread i).c) ∧
        st2.filesize =
          (st.filesize + ((List.range' j (k - j)).map (fun i => (fread i).c.toNat)).sum) %
            4294967296 := by
  intro fuel
  induction fuel with
  | zero => intro j st _ h; omega
  | succ fuel ih =>
    intro j st hjk hfuel hfs
    unfold file_operation_loop
    by_cases hj : j = k
    · subst hj
      simp only [hend, if_false]
      refine ⟨st, rfl, by simp, ?_⟩
      simp only [Nat.sub_self, List.range'_zero, List.map_nil, List.sum_nil, Nat.add_zero]
      exact (Nat.mod_eq_of_lt hfs).symm
    · have hlt : j < k := by omega
      have hc := hpos j hlt
      simp only [hc, if_true]
      obtain ⟨st2, e1, e2, e3⟩ := ih (j + 1)
        { op_func { st with buffer := buffer_store st.buffer (fread j).data }
            (buffer_store st.buffer (fread j).data) (fread j).c with
          filesize := add32 (op_func { st with buffer := buffer_store st.buffer (fread j).data }
            (buffer_store st.buffer (fread j).data) (fread j).c).filesize (fread j).c.toNat
          op_calls := st.op_calls ++ [(fread j).c] }
        (by omega) (by omega) (by simp only [add32]; omega)
      refine ⟨st2, e1, ?_, ?_⟩
      · rw [e2]
        have : k - j = (k - (j + 1)) + 1 := by omega
        rw [this, List.range'_succ]
        simp
      · rw [e3]
        have : k - j = (k - (j + 1)) + 1 := by omega
        rw [this, List.range'_succ]
        simp only [hop, add32, List.map_cons, List.sum_cons]
        omega

/-- The loop of `file_operation` makes one pass for each of the reads before the first
that is not positive, in order. -/
theorem file_operation_loop_passes (op_func : FileOpState → List Nat → Int → FileOpState)
    (fread : Nat → ReadResult) (k : Nat) (hpos : ∀ j, j < k → (fread j).c > 0)
    (hend : ¬ (fread k).c > 0) :
    ∀ fuel j (st : FileOpState), j ≤ k → k - j < fuel →
      file_operation_loop op_func fread fuel j st =
        some (((List.range' j (k - j)).map fread).foldl (file_operation_pass op_func) st,
          (fread k).c) := by
  intro fuel
  induction fuel with
  | zero => intro j st _ h; omega
  | succ fuel ih =>
    intro j st hjk hfuel
    unfold file_operation_loop
    by_cases hj : j = k
    · subst hj
      simp only [hend, if_false, Nat.sub_self, List.range'_zero, List.map_nil, List.foldl_nil]
    · have hlt : j < k := by omega
      have hc := hpos j hlt
      have hk : k - j = (k - (j + 1)) + 1 := by omega
      simp only [hc, if_true]
      rw [ih (j + 1) _ (by omega) (by omega), hk, List.range'_succ, List.map_cons,
        List.foldl_cons]
      rfl

/-- C22: for every sequence of read results of an opened file whose `k`-th result is the
first that is not positive, `file_operation` (with fuel for more than `k` reads) returns.
The globals it leaves are those obtained by one pass for each of the results `0 .. k-1`,
in order: the data are stored in `buffer`, the consumer `op_func` is called once with
`buffer` and with the result as length, the result is added to `filesize`; nothing else
is done to them.  A read error is reported exactly when the `k`-th result is not `EOF`,
and the offset reported is `filesize`; when the consumer leaves `filesize` alone, as
`op_type`, `op_dump` and `op_crc` do, it is the sum of the results consumed (as a 32-bit
value, so the sum itself when that is below `2 ^ 32`). -/
theorem file_operation_reads (op_func : FileOpState → List Nat → Int → FileOpState)
    (fread : Nat → ReadResult) (k fuel : Nat) (st0 : FileOpState)
    (hpos : ∀ j, j < k → (fread j).c > 0) (hend : ¬ (fread k).c > 0) (hfuel : k < fuel) :
    ∃ res, file_operation op_func (some fread) fuel st0 = some res ∧
      res.open_failed = false ∧
      res.state = ((List.range k).map fread).foldl (file_operation_pass op_func)
        { st0 with filesize := 0, filecrc := 0, op_calls := [] } ∧
      res.state.op_calls = (List.range k).map (fun i => (fread i).c) ∧
      ((∀ st p l, (op_func st p l).filesize = st.filesize) →
        res.state.filesize =
          ((List.range k).map (fun i => (fread i).c.toNat)).sum % 4294967296 ∧
        (((List.range k).map (fun i => (fread i).c.toNat)).sum < 4294967296 →
          res.state.filesize = ((List.range k).map (fun i => (fread i).c.toNat)).sum)) ∧
      ((fread k).c ≠ EOF → res.read_error = some res.state.filesize) ∧
      ((fread k).c = EOF → res.read_error = none) := by
  have e0 := file_operation_loop_passes op_func fread k hpos hend fuel 0
    { st0 with filesize := 0, filecrc := 0, op_calls := [] } (by omega) (by omega)
  simp only [Nat.sub_zero, ← List.range_eq_range'] at e0
  have hcalls : ∀ (l : List ReadResult) (st : FileOpState),
      (l.foldl (file_operation_pass op_func) st).op_calls =
        st.op_calls ++ l.map (fun r => r.c) := by
    intro l
    induction l with
    | nil => intro st; simp
    | cons r rs ih => intro st; rw [List.foldl_cons, ih]; simp [file_operation_pass]
  refine ⟨{ state := ((List.range k).map fread).foldl (file_operation_pass op_func)
              { st0 with filesize := 0, filecrc := 0, op_calls := [] },
            read_error := if (fread k).c ≠ EOF then
              some (((List.range k).map fread).foldl (file_operation_pass op_func)
                { st0 with filesize := 0, filecrc := 0, op_calls := [] }).filesize else none,
            open_failed := false }, ?_, rfl, rfl, ?_, ?_, ?_, ?_⟩
  · simp only [file_operation, e0]
  · simp only [hcalls, List.nil_append, List.map_map]
    rfl
  · intro hop
    obtain ⟨st2, e1, _, e3⟩ := file_operation_loop_run op_func hop fread k hpos hend fuel 0
      { st0 with filesize := 0, filecrc := 0, op_calls := [] } (by omega) (by omega)
      (by simp)
    simp only [Nat.sub_zero, Nat.zero_add, ← List.range_eq_range'] at e1 e3
    rw [e0] at e1
    have hst : ((List.range k).map fread).foldl (file_operation_pass op_func)
        { st0 with filesize := 0, filecrc := 0, op_calls := [] } = st2 := by
      have := Option.some.inj e1
      exact (Prod.mk.inj this).1
    simp only [hst]
    refine ⟨e3, ?_⟩
    intro h
    rw [e3]
    exact Nat.mod_eq_of_lt h
  · intro h
    simp only [h, ne_eq, not_false_eq_true, if_true]
  · intro h
    simp only [h, ne_eq, not_true_eq_false, if_false]

set_option maxRecDepth 100000 in
/-- Witness of C22 with the consumer `op_crc`: the reads [1, 2, 3] (3 bytes), [4, 5]
(2 bytes), then 0: the consumer has been called with 3 and with 2, `filecrc` is the CRC
of the five bytes that the calls were given, `buffer` holds the last data, and a read
error is reported at offset 5. -/
theorem file_operation_reads_witness :
    ∃ res, file_operation op_crc_call
        (some (fun k => if k = 0 then ⟨3, [1, 2, 3]⟩ else if k = 1 then ⟨2, [4, 5]⟩ else ⟨0, []⟩))
        3 ⟨7, 7, List.replicate 512 0, [], []⟩ = some res ∧
      res.state.op_calls = [3, 2] ∧ res.state.filecrc = crc32b 0 [1, 2, 3, 4, 5] ∧
      res.state.buffer.take 3 = [4, 5, 3] ∧ res.read_error = some 5 := by
  obtain ⟨res, h1, _, h3, h4, h5, h6, _⟩ := file_operation_reads op_crc_call
    (fun k => if k = 0 then ⟨3, [1, 2, 3]⟩ else if k = 1 then ⟨2, [4, 5]⟩ else ⟨0, []⟩)
    2 3 ⟨7, 7, List.replicate 512 0, [], []⟩ (by decide) (by decide) (by decide)
  refine ⟨res, h1, h4.trans (by decide), ?_, ?_, ?_⟩
  · rw [h3]; decide
  · rw [h3]; decide
  · rw [h6 (by decide), (h5 (fun _ _ _ => rfl)).1]
    decide

/-- The loop of `file_operation` with the callback `op_crc` on a file delivered in
chunks. -/
theorem file_operation_loop_crc (chunks : List (List Nat))
    (hch : ∀ c ∈ chunks, 0 < c.length ∧ c.length ≤ 512) :
    ∀ fuel j (st : FileOpState), j ≤ chunks.length → chunks.length - j < fuel →
      st.buffer.length = 512 → st.filesize < 4294967296 →
      ∃ st2, file_operation_loop op_crc_call (chunk_file chunks) fuel j st = some (st2, EOF) ∧
        st2.filecrc = crc32b st.filecrc (chunks.drop j).flatten ∧
        st2.filesize = (st.filesize + (chunks.drop j).flatten.length) % 4294967296 := by
  intro fuel
  induction fuel with
  | zero => intro j st _ h; omega
  | succ fuel ih =>
    intro j st hj hfuel hbuf hfs
    unfold file_operation_loop
    by_cases hlt : j < chunks.length
    · have hget : chunks[j]? = some chunks[j] := List.getElem?_eq_getElem hlt
      have hmem : chunks[j] ∈ chunks := List.getElem_mem hlt
      obtain ⟨hc1, hc2⟩ := hch _ hmem
      have hread : chunk_file chunks j = { c := (chunks[j].length : Int), data := chunks[j] } := by
        simp [chunk_file, hget]
      have hpos : (chunk_file chunks j).c > 0 := by
        rw [hread]; simp only; omega
      have hstore : buffer_store st.buffer chunks[j] = chunks[j] ++ st.buffer.drop chunks[j].length := by
        unfold buffer_store
        rw [List.take_of_length_le (by omega)]
      have hstorelen : (buffer_store st.buffer chunks[j]).length = 512 := by
        rw [hstore, List.length_append, List.length_drop]; omega
      simp only [hpos, if_true]
      obtain ⟨st2, e1, e2, e3⟩ := ih (j + 1)
        { op_crc_call { st with buffer := buffer_store st.buffer (chunk_file chunks j).data }
            (buffer_store st.buffer (chunk_file chunks j).data) (chunk_file chunks j).c with
          filesize := add32 (op_crc_call
            { st with buffer := buffer_store st.buffer (chunk_file chunks j).data }
            (buffer_store st.buffer (chunk_file chunks j).data)
            (chunk_file chunks j).c).filesize (chunk_file chunks j).c.toNat
          op_calls := st.op_calls ++ [(chunk_file chunks j).c] }
        (by omega) (by omega)
        (by simp only [op_crc_call, hread]; exact hstorelen)
        (by simp only [add32]; omega)
      have hdrop : chunks.drop j = chunks[j] :: chunks.drop (j + 1) :=
        List.drop_eq_getElem_cons hlt
      refine ⟨st2, e1, ?_, ?_⟩
      · rw [e2, hdrop, List.flatten_cons, ← crc32b_append_seed]
        simp only [op_crc_call, op_crc, hread, Int.toNat_ofNat, hstore, List.take_left]
      · rw [e3, hdrop, List.flatten_cons, List.length_append]
        simp only [op_crc_call, add32, hread, Int.toNat_ofNat]
        omega
    · have hj2 : j = chunks.length := by omega
      have hget : chunks[j]? = none := by
        rw [hj2]; exact List.getElem?_eq_none (Nat.le_refl _)
      have hread : chunk_file chunks j = { c := EOF, data := [] } := by
        simp [chunk_file, hget]
      have hnpos : ¬ (chunk_file chunks j).c > 0 := by
        rw [hread]; decide
      simp only [hnpos, if_false]
      refine ⟨st, by rw [hread], ?_, ?_⟩
      · rw [hj2, List.drop_length]; simp [crc32b, Nat.xor_assoc]
      · rw [hj2, List.drop_length]
        simp only [List.flatten_nil, List.length_nil, Nat.add_zero]
        exact (Nat.mod_eq_of_lt hfs).symm

/-- C24: for every file delivered as a sequence of chunks of positive length (at most
512 bytes each, fewer than `2 ^ 32` bytes in all) terminated by `EOF`, after
`file_operation(name, op_crc)` the global `filesize` is the total number of bytes
delivered and `filecrc` is `crc32b(0, ...)` of the concatenation of the chunks, whatever
`filesize` and `filecrc` held before the call; no read error is reported. -/
theorem file_operation_crc (chunks : List (List Nat)) (st0 : FileOpState)
    (hch : ∀ c ∈ chunks, 0 < c.length ∧ c.length ≤ 512)
    (hbuf : st0.buffer.length = 512) (htotal : chunks.flatten.length < 4294967296) :
    ∃ res, file_operation op_crc_call (some (chunk_file chunks)) (chunks.length + 1) st0 =
        some res ∧
      res.state.filesize = chunks.flatten.length ∧
      res.state.filecrc = crc32b 0 chunks.flatten ∧
      res.read_error = none ∧ res.open_failed = false := by
  obtain ⟨st2, e1, e2, e3⟩ := file_operation_loop_crc chunks hch (chunks.length + 1) 0
    { st0 with filesize := 0, filecrc := 0, op_calls := [] } (by omega) (by omega) hbuf
    (by simp)
  simp only [List.drop_zero, Nat.zero_add] at e2 e3
  refine ⟨{ state := st2, read_error := none, open_failed := false }, ?_, ?_, e2, rfl, rfl⟩
  · simp only [file_operation, e1]
    simp
  · rw [e3]
    exact Nat.mod_eq_of_lt htotal

/-- Witness of C24: the chunks [1, 2, 3] and [4, 5], with 99 and 12345 in `filesize` and
`filecrc` before the call, give `filesize = 5` and the CRC-32 of the five bytes. -/
theorem file_operation_crc_witness :
    ∃ res, file_operation op_crc_call (some (chunk_file [[1, 2, 3], [4, 5]])) (2 + 1)
        ⟨99, 12345, List.replicate 512 0, [], []⟩ = some res ∧
      res.state.filesize = 5 ∧ res.state.filecrc = crc32b 0 [1, 2, 3, 4, 5] := by
  obtain ⟨res, h1, h2, h3, _, _⟩ := file_operation_crc [[1, 2, 3], [4, 5]]
    ⟨99, 12345, List.replicate 512 0, [], []⟩ (by decide)
    (List.length_replicate ..) (by decide)
  exact ⟨res, h1, h2, h3⟩

theorem shiftRight_xor (x y n : Nat) : (x ^^^ y) >>> n = (x >>> n) ^^^ (y >>> n) := by
  apply Nat.eq_of_testBit_eq
  intro i
  simp

theorem spec_crc_bit_xor (x y : Nat) :
    spec_crc_bit (x ^^^ y) = spec_crc_bit x ^^^ spec_crc_bit y := by
  unfold spec_crc_bit
  rw [shiftRight_xor]
  by_cases hx : x % 2 = 1 <;> by_cases hy : y % 2 = 1
  · have h : ¬ (x ^^^ y) % 2 = 1 := by rw [Nat.xor_mod_two_eq]; omega
    simp only [hx, hy, h, if_true, if_false]
    have e : (x >>> 1 ^^^ 0xEDB88320) ^^^ (y >>> 1 ^^^ 0xEDB88320) =
        (x >>> 1 ^^^ y >>> 1) ^^^ (0xEDB88320 ^^^ 0xEDB88320) := by ac_rfl
    rw [e, Nat.xor_self, Nat.xor_zero]
  · have h : (x ^^^ y) % 2 = 1 := by rw [Nat.xor_mod_two_eq]; omega
    simp only [hx, hy, h, if_true, if_false]
    ac_rfl
  · have h : (x ^^^ y) % 2 = 1 := by rw [Nat.xor_mod_two_eq]; omega
    simp only [hx, hy, h, if_true, if_false]
    ac_rfl
  · have h : ¬ (x ^^^ y) % 2 = 1 := by rw [Nat.xor_mod_two_eq]; omega
    simp only [hx, hy, h, if_false]

theorem spec_crc_bit_iterate_xor (n : Nat) : ∀ x y : Nat,
    spec_crc_bit^[n] (x ^^^ y) = spec_crc_bit^[n] x ^^^ spec_crc_bit^[n] y := by
  induction n with
  | zero => intro x y; rfl
  | succ n ih =>
    intro x y
    simp only [Function.iterate_succ_apply, spec_crc_bit_xor, ih]

theorem spec_crc_bit_iterate_shift (n : Nat) : ∀ m : Nat,
    spec_crc_bit^[n] (m * 2 ^ n) = m := by
  induction n with
  | zero => intro m; simp
  | succ n ih =>
    intro m
    have h1 : ¬ (m * 2 ^ (n + 1)) % 2 = 1 := by
      rw [Nat.pow_succ, ← Nat.mul_assoc]; omega
    have h2 : (m * 2 ^ (n + 1)) >>> 1 = m * 2 ^ n := by
      rw [Nat.shiftRight_eq_div_pow, Nat.pow_succ, ← Nat.mul_assoc]; omega
    rw [Function.iterate_succ_apply]
    simp only [spec_crc_bit, h1, if_false, h2]
    exact ih m

theorem split_low_byte (x : Nat) : x = (x &&& 0xFF) ^^^ ((x >>> 8) * 2 ^ 8) := by
  apply Nat.eq_of_testBit_eq
  intro i
  have e : (0xFF : Nat) = 2 ^ 8 - 1 := by decide
  rw [e, ← Nat.shiftLeft_eq]
  simp only [Nat.testBit_xor, Nat.testBit_and, Nat.testBit_two_pow_sub_one,
    Nat.testBit_shiftLeft, Nat.testBit_shiftRight]
  by_cases h : i < 8
  · have h2 : ¬ i ≥ 8 := by omega
    simp [h, h2]
  · have h2 : i ≥ 8 := by omega
    have h3 : 8 + (i - 8) = i := by omega
    simp [h, h2, h3]

set_option maxRecDepth 100000 in
theorem crc32_tab_entries : ∀ i, i < 256 → crc32_tab.getD i 0 = spec_crc_bit^[8] i := by
  decide

theorem crc32_step_eq_spec (c byte : Nat) : crc32_step c byte = spec_crc_byte c byte := by
  unfold crc32_step spec_crc_byte
  have hx := split_low_byte (c ^^^ byte % 256)
  have hlow : (c ^^^ byte % 256) &&& 0xFF < 256 := by
    have e : (0xFF : Nat) = 2 ^ 8 - 1 := by decide
    rw [e, Nat.and_pow_two_sub_one_eq_mod]
    omega
  have hhigh : (c ^^^ byte % 256) >>> 8 = c >>> 8 := by
    rw [shiftRight_xor]
    have : (byte % 256) >>> 8 = 0 := by
      rw [Nat.shiftRight_eq_div_pow]; omega
    rw [this, Nat.xor_zero]
  conv_rhs => rw [hx]
  rw [spec_crc_bit_iterate_xor, spec_crc_bit_iterate_shift, ← crc32_tab_entries _ hlow, hhigh]

/-- C23: the table-driven `crc32b` is the standard CRC-32: for every byte sequence
`crc32b(0, buf)` equals the bit-by-bit reflected CRC with the polynomial 0xEDB88320, the
initial value 0xFFFFFFFF and the final complement; and each of the 256 entries
`crc32_tab[i]` is the result of eight bit steps applied to `i`. -/
theorem crc32b_eq_bitwise :
    (∀ buf : List Nat, crc32b 0 buf = spec_crc32 buf) ∧
    crc32_tab.length = 256 ∧
    (∀ i, i < 256 → crc32_tab.getD i 0 = spec_crc_bit^[8] i) := by
  refine ⟨?_, by set_option maxRecDepth 100000 in decide, crc32_tab_entries⟩
  intro buf
  have hf : crc32_step = spec_crc_byte := by
    funext c byte
    exact crc32_step_eq_spec c byte
  have h0 : (0 : Nat) ^^^ 0xFFFFFFFF = 0xFFFFFFFF := by decide
  simp only [crc32b, spec_crc32, hf, h0]

/-- Witness of C23: the entry `crc32_tab[1]` is 0x77073096, eight bit steps applied to 1,
and the two computations agree on "123456789". -/
theorem crc32b_eq_bitwise_witness :
    crc32_tab.getD 1 0 = spec_crc_bit^[8] 1 ∧ spec_crc_bit^[8] 1 = 0x77073096 ∧
    crc32b 0 (asc "123456789") = spec_crc32 (asc "123456789") :=
  ⟨crc32b_eq_bitwise.2.2 1 (by decide), by decide, crc32b_eq_bitwise.1 (asc "123456789")⟩

/-- Printable characters typed into `prompt_readline` are appended to the line. -/
theorem prompt_readline_fold (buf_size : Nat) (keys : List Nat) :
    ∀ pre : List Nat, (∀ c ∈ keys, 32 ≤ c ∧ c < 127) → pre.length + keys.length + 1 ≤ buf_size →
      keys.foldl (prompt_readline_key buf_size)
          (pre ++ List.replicate (buf_size - pre.length) 0, pre.length) =
        (pre ++ keys ++ List.replicate (buf_size - (pre ++ keys).length) 0,
          (pre ++ keys).length) := by
  induction keys with
  | nil => intro pre _ _; simp
  | cons c cs ih =>
    intro pre hk hlen
    simp only [List.length_cons] at hlen
    obtain ⟨hc1, hc2⟩ := hk c (by simp)
    have e1 : ¬ (c = 8 ∨ c = 0x7F) := by omega
    have e2 : ¬ (c = 3 ∨ c = 0x18) := by omega
    have e3 : pre.length < buf_size - 1 ∧ c ≥ 32 ∧ c < 128 := by omega
    obtain ⟨m, hm⟩ : ∃ m, buf_size - pre.length = m + 1 := ⟨buf_size - pre.length - 1, by omega⟩
    have hset : (pre ++ List.replicate (buf_size - pre.length) 0).set pre.length c =
        (pre ++ [c]) ++ List.replicate (buf_size - (pre ++ [c]).length) 0 := by
      have hm2 : buf_size - (pre ++ [c]).length = m := by
        simp only [List.length_append, List.length_singleton]; omega
      rw [hm, hm2, List.replicate_succ, set_at]
      simp
    rw [List.foldl_cons]
    simp only [prompt_readline_key, e1, e2, e3, if_false, if_true, and_self, hset]
    have := ih (pre ++ [c]) (fun x hx => hk x (by simp [hx]))
      (by simp only [List.length_append, List.length_singleton]; omega)
    simp only [List.length_append, List.length_singleton] at this
    simp only [List.length_append, List.length_singleton, List.length_cons, List.length_nil,
      Nat.zero_add]
    rw [this]
    have ha : pre.length + 1 + cs.length = pre.length + (cs.length + 1) := by omega
    rw [ha]
    simp

/-- A line of at most `buf_size - 1` printable characters is returned as it is typed,
followed by NULs. -/
theorem prompt_readline_printable (buf_size : Nat) (keys : List Nat)
    (hk : ∀ c ∈ keys, 32 ≤ c ∧ c < 127) (hlen : keys.length + 1 ≤ buf_size) :
    prompt_readline buf_size keys =
      (keys ++ List.replicate (buf_size - keys.length) 0, keys.length) := by
  have h := prompt_readline_fold buf_size keys [] hk (by simpa using hlen)
  simp only [List.nil_append, List.length_nil, Nat.sub_zero] at h
  simp only [prompt_readline, h]
  obtain ⟨m, hm⟩ : ∃ m, buf_size - keys.length = m + 1 := ⟨buf_size - keys.length - 1, by omega⟩
  rw [hm, List.replicate_succ, set_at]

set_option maxRecDepth 100000 in
/-- C26 (the code at a failing input): when 255 letters 'a' are typed, `prompt_readline`
leaves 255 characters and the NUL at index 255 in `cmd_line[256]`; the scan of the
command token stops at index 255, `*arg++ = 0` writes there and leaves `arg` at 256, and
the loop `while (*arg == ' ')` reads `cmd_line[256]`, one past the array. -/
theorem tokenize_reads_past_cmd_line :
    prompt_readline 256 (List.replicate 255 97) = (cmd_line_of (List.replicate 255 97), 255) ∧
    (cmd_line_of (List.replicate 255 97)).length = 256 ∧
    skip_word (cmd_line_of (List.replicate 255 97)) 257 0 = 255 ∧
    (tokenize (cmd_line_of (List.replicate 255 97))).arg = 256 ∧
    256 ∈ tokenize_accesses (cmd_line_of (List.replicate 255 97)) := by
  refine ⟨?_, by decide, by decide, by decide, by decide⟩
  rw [prompt_readline_printable 256 (List.replicate 255 97)
    (fun c hc => by rw [(List.mem_replicate.1 hc).2]; decide)
    (by rw [List.length_replicate])]
  rfl

theorem takeWhile_nonzero_lt (l : List Nat) (h : 0 ∈ l) :
    (l.takeWhile (fun c => c ≠ 0)).length < l.length := by
  induction l with
  | nil => simp at h
  | cons x xs ih =>
    by_cases hx : x = 0
    · simp [hx]
    · have hmem : 0 ∈ xs := by
        rcases List.mem_cons.1 h with h0 | h0
        · exact absurd h0.symm hx
        · exact h0
      have := ih hmem
      rw [List.takeWhile_cons_of_pos (by simpa using hx)]
      simp only [List.length_cons]
      omega

theorem rd_takeWhile_nonzero (l : List Nat) (h : 0 ∈ l) :
    rd l (l.takeWhile (fun c => c ≠ 0)).length = 0 := by
  induction l with
  | nil => simp at h
  | cons x xs ih =>
    by_cases hx : x = 0
    · simp [hx, rd]
    · have hmem : 0 ∈ xs := by
        rcases List.mem_cons.1 h with h0 | h0
        · exact absurd h0.symm hx
        · exact h0
      have := ih hmem
      rw [List.takeWhile_cons_of_pos (by simpa using hx)]
      simp only [List.length_cons]
      simpa [rd] using this

theorem strrchr_loop_bound (c : Nat) (s : List Nat) :
    ∀ (i : Nat) (last : Option Nat),
      strrchr_loop c s i last = last ∨
        ∃ j, strrchr_loop c s i last = some j ∧ i ≤ j ∧ j < i + s.length := by
  induction s with
  | nil => intro i last; exact Or.inl rfl
  | cons x xs ih =>
    intro i last
    simp only [strrchr_loop, List.length_cons]
    rcases ih (i + 1) (if x = c then some i else last) with h | ⟨j, hj, h1, h2⟩
    · rw [h]
      by_cases hx : x = c
      · simp only [hx, if_true]
        exact Or.inr ⟨i, rfl, Nat.le_refl _, by omega⟩
      · simp only [hx, if_false]
        exact Or.inl trivial
    · exact Or.inr ⟨j, hj, by omega, by omega⟩

/-- C25: for every content of `current_dir[N]` that is NUL-terminated within the array,
the empty (root) path included, `change_dir("..")` reads and writes only at indices
inside the array: the index `strlen(current_dir)` it inspects is below `N`, and so are
all indices it scans and all indices it clears. -/
theorem change_dir_up_in_bounds (N : Nat) (current_dir : List Nat)
    (hlen : current_dir.length = N) (hnul : 0 ∈ current_dir) :
    strlen current_dir < N ∧ ∀ i ∈ change_dir_up_accesses N current_dir, i < N := by
  have hs : strlen current_dir < N := by
    rw [← hlen]
    simpa [strlen, cstr] using takeWhile_nonzero_lt current_dir hnul
  have hrd : ¬ rd current_dir (strlen current_dir) = 47 := by
    have : rd current_dir (strlen current_dir) = 0 := by
      simpa [strlen, cstr] using rd_takeWhile_nonzero current_dir hnul
    rw [this]; decide
  have hparent : (match strrchr current_dir 47 with
      | some p => p
      | none => 0) < N := by
    rcases strrchr_loop_bound 47 (cstr current_dir 0) 0 none with h | ⟨j, hj, _, h2⟩
    · simp only [strrchr, h]; omega
    · simp only [strrchr, hj]
      simp only [strlen] at hs
      omega
  refine ⟨hs, ?_⟩
  intro i hi
  simp only [change_dir_up_accesses, hrd, if_false, List.append_nil, List.mem_append,
    List.mem_range, List.mem_singleton, List.mem_range'_1] at hi
  rcases hi with ((h | h) | h) | h
  · omega
  · omega
  · omega
  · omega

/-- Witness of C25 with `N = 260`: at the root (the array is all NUL) the index inspected
is 0 and every index accessed is below 260. -/
theorem change_dir_up_in_bounds_witness :
    strlen (path_buffer 260 (asc "")) < 260 ∧
    ∀ i ∈ change_dir_up_accesses 260 (path_buffer 260 (asc "")), i < 260 :=
  change_dir_up_in_bounds 260 (path_buffer 260 (asc ""))
    (by set_option maxRecDepth 100000 in decide)
    (by set_option maxRecDepth 100000 in decide)

end SdfatMenu
